import Mathlib

/-!
Verification of the telegram-chat-manager core logic: chat classification,
spam analysis, the single-chat delete endpoint, the export endpoint's cache
filters, and the client-side optimistic-delete state machine.

The definitions below are shallow embeddings of the Python functions in
`src/cli_manager.py`, `src/fastapi_manager.py`, `src/portable_manager.py`,
and of the JavaScript delete/undo logic embedded in the FastAPI variant's
HTML page. Each definition keeps the source's name where Lean allows it.
-/

set_option maxHeartbeats 1000000

/-- Runtime class of an object yielded by `iter_dialogs`, as tested with
`isinstance` in the Python code: telethon `User`, `Chat`, `Channel`, or
anything else. -/
inductive PyClass
  | user
  | chat
  | channel
  | other
deriving DecidableEq, Repr

/-- One message as returned by `client.get_messages`; the analyzers only
inspect the `out` flag (whether the account owner sent it). -/
structure Message where
  out : Bool
deriving DecidableEq, Repr

/-- A conversation entity as consumed by the classifier and analyzers:
its runtime class plus the boolean attributes the Python code reads
(directly or through `getattr(..., False)`). -/
structure TLEntity where
  id : Int
  cls : PyClass
  broadcast : Bool := false
  megagroup : Bool := false
  deleted : Bool := false
  bot : Bool := false
  scam : Bool := false
  fake : Bool := false
deriving DecidableEq, Repr

/-! ## Classifier (`categorize_chats`, src/cli_manager.py lines 74-111) -/

/-- The five primary buckets filled by the classification loop, before the
derived `groups` key is assembled. -/
structure Cat5 where
  users : List TLEntity
  basic_groups : List TLEntity
  supergroups : List TLEntity
  channels : List TLEntity
  unknown : List TLEntity
deriving DecidableEq, Repr

/-- The returned dictionary of `categorize_chats`, including the derived
`groups = basic_groups + supergroups` key. -/
structure Categorized where
  groups : List TLEntity
  supergroups : List TLEntity
  basic_groups : List TLEntity
  channels : List TLEntity
  users : List TLEntity
  unknown : List TLEntity
deriving DecidableEq, Repr

/-- The classification loop of `categorize_chats`: `isinstance(chat, User)`
goes to `users`, `isinstance(chat, Chat)` to `basic_groups`,
`isinstance(chat, Channel)` to `channels` when `broadcast` else to
`supergroups` (both the `megagroup` branch and the final `else` append to
`supergroups`), anything else to `unknown`. Each bucket keeps input order. -/
def categorize5 : List TLEntity → Cat5
  | [] => ⟨[], [], [], [], []⟩
  | c :: rest =>
    let r := categorize5 rest
    match c.cls with
    | PyClass.user => { r with users := c :: r.users }
    | PyClass.chat => { r with basic_groups := c :: r.basic_groups }
    | PyClass.channel =>
        if c.broadcast then { r with channels := c :: r.channels }
        else if c.megagroup then { r with supergroups := c :: r.supergroups }
        else { r with supergroups := c :: r.supergroups }
    | PyClass.other => { r with unknown := c :: r.unknown }

/-- `categorize_chats(all_chats)`: run the loop, then assemble the result
dictionary with `all_groups = basic_groups + supergroups`. -/
def categorize_chats (all_chats : List TLEntity) : Categorized :=
  let r := categorize5 all_chats
  { groups := r.basic_groups ++ r.supergroups
    supergroups := r.supergroups
    basic_groups := r.basic_groups
    channels := r.channels
    users := r.users
    unknown := r.unknown }

/-- Bucket-membership predicates of the classifier, used to characterise
each primary bucket as a filter of the input. -/
def isUserEnt (c : TLEntity) : Bool := c.cls = PyClass.user

def isBasicGroupEnt (c : TLEntity) : Bool := c.cls = PyClass.chat

def isSupergroupEnt (c : TLEntity) : Bool := c.cls = PyClass.channel && !c.broadcast

def isChannelEnt (c : TLEntity) : Bool := c.cls = PyClass.channel && c.broadcast

def isUnknownEnt (c : TLEntity) : Bool := c.cls = PyClass.other

/-! ## Spam analyzer

Two variants are embedded: `analyze_user_chats` (src/cli_manager.py lines
130-194, probe limit 10, no budget, with an `only_incoming` bucket) and
`analyze` (src/fastapi_manager.py lines 2434-2499 and the identical
src/portable_manager.py lines 1480-1559: probe limit 1, budget of 50
gated on the `users_checked` counter, no `only_incoming` bucket).

A probe models `client.get_messages(user, limit)`: it either raises
(`Except.error`) or returns a list of messages. -/

abbrev Probe := Int → Nat → Except Unit (List Message)

/-- Result buckets of the FastAPI/portable `analyze`. -/
structure Analysis where
  deleted : List TLEntity
  no_messages : List TLEntity
  bots : List TLEntity
  scam : List TLEntity
  fake : List TLEntity
  active : List TLEntity
deriving DecidableEq, Repr

def emptyAnalysis : Analysis := ⟨[], [], [], [], [], []⟩

/-- Buckets of the FastAPI/portable `analyze`, as an enumeration. -/
inductive FaBucket
  | deleted
  | no_messages
  | bots
  | scam
  | fake
  | active
deriving DecidableEq, Repr

/-- The per-user `if`/`elif` chain of the FastAPI/portable `analyze`:
flags in priority order, then — only while `users_checked <= 50` — the
probe with limit 1 (`except` and empty result both mean `no_messages`);
past the budget the user defaults to `active` without a probe. Here
`users_checked` is the counter value after the `users_checked += 1` for
this user. -/
def fa_bucket (probe : Probe) (u : TLEntity) (users_checked : Nat) : FaBucket :=
  if u.deleted then FaBucket.deleted
  else if u.bot then FaBucket.bots
  else if u.scam then FaBucket.scam
  else if u.fake then FaBucket.fake
  else if users_checked ≤ 50 then
    match probe u.id 1 with
    | Except.error _ => FaBucket.no_messages
    | Except.ok msgs => if msgs.length = 0 then FaBucket.no_messages else FaBucket.active
  else FaBucket.active

/-- Whether `analyze` invokes the probe for this user: unflagged and
within the `users_checked <= 50` budget window. -/
def fa_probed (u : TLEntity) (users_checked : Nat) : Bool :=
  !u.deleted && !u.bot && !u.scam && !u.fake && users_checked ≤ 50

/-- Append a user to the chosen bucket (the Python `analysis[...].append`;
lists are built head-first by the recursion, preserving input order). -/
def faAdd (b : FaBucket) (u : TLEntity) (a : Analysis) : Analysis :=
  match b with
  | FaBucket.deleted => { a with deleted := u :: a.deleted }
  | FaBucket.no_messages => { a with no_messages := u :: a.no_messages }
  | FaBucket.bots => { a with bots := u :: a.bots }
  | FaBucket.scam => { a with scam := u :: a.scam }
  | FaBucket.fake => { a with fake := u :: a.fake }
  | FaBucket.active => { a with active := u :: a.active }

/-- The dialog loop of `analyze`: only `isinstance(dialog.entity, User)`
entries are analyzed, `users_checked` counts every person seen (flagged or
not), and the second component logs the ids for which the probe was
invoked, in input order. -/
def analyzeGo (probe : Probe) : List TLEntity → Nat → Analysis × List Int
  | [], _ => (emptyAnalysis, [])
  | d :: rest, n =>
    if d.cls = PyClass.user then
      let r := analyzeGo probe rest (n + 1)
      (faAdd (fa_bucket probe d (n + 1)) d r.1,
       if fa_probed d (n + 1) then d.id :: r.2 else r.2)
    else analyzeGo probe rest n

/-- `analyze` of the FastAPI/portable variants: the resulting buckets. -/
def analyze (probe : Probe) (dialogs : List TLEntity) : Analysis :=
  (analyzeGo probe dialogs 0).1

/-- The probe invocations `analyze` makes, as the list of probed ids in
input order. -/
def analyzeCalls (probe : Probe) (dialogs : List TLEntity) : List Int :=
  (analyzeGo probe dialogs 0).2

/-- Concatenation of all six buckets of an `Analysis`, in the dictionary
order of the source. -/
def concatAll (a : Analysis) : List TLEntity :=
  a.deleted ++ a.no_messages ++ a.bots ++ a.scam ++ a.fake ++ a.active

/-- Membership predicate of the `deleted` bucket of `analyze`. -/
def faDeletedP (c : TLEntity) : Bool := isUserEnt c && c.deleted

/-- Membership predicate of the `bots` bucket of `analyze`. -/
def faBotP (c : TLEntity) : Bool := isUserEnt c && !c.deleted && c.bot

/-- Membership predicate of the `scam` bucket of `analyze`. -/
def faScamP (c : TLEntity) : Bool :=
  isUserEnt c && !c.deleted && !c.bot && c.scam

/-- Membership predicate of the `fake` bucket of `analyze`. -/
def faFakeP (c : TLEntity) : Bool :=
  isUserEnt c && !c.deleted && !c.bot && !c.scam && c.fake

/-- Result buckets of the CLI `analyze_user_chats`. -/
structure CliAnalysis where
  deleted : List TLEntity
  no_messages : List TLEntity
  only_incoming : List TLEntity
  bots : List TLEntity
  scam : List TLEntity
  fake : List TLEntity
  active : List TLEntity
deriving DecidableEq, Repr

def emptyCliAnalysis : CliAnalysis := ⟨[], [], [], [], [], [], []⟩

/-- Buckets of the CLI `analyze_user_chats`, as an enumeration. -/
inductive CliBucket
  | deleted
  | no_messages
  | only_incoming
  | bots
  | scam
  | fake
  | active
deriving DecidableEq, Repr

/-- The per-user body of `analyze_user_chats`: flags in priority order,
then an unconditional probe with limit 10; `except` anywhere in the body
or an empty result means `no_messages`; with messages but none outgoing,
`only_incoming`; otherwise `active`. -/
def cli_bucket (probe : Probe) (u : TLEntity) : CliBucket :=
  if u.deleted then CliBucket.deleted
  else if u.bot then CliBucket.bots
  else if u.scam then CliBucket.scam
  else if u.fake then CliBucket.fake
  else
    match probe u.id 10 with
    | Except.error _ => CliBucket.no_messages
    | Except.ok msgs =>
        if msgs.length = 0 then CliBucket.no_messages
        else if !(msgs.any (fun m => m.out)) then CliBucket.only_incoming
        else CliBucket.active

/-- Append a user to the chosen CLI bucket. -/
def cliAdd (b : CliBucket) (u : TLEntity) (a : CliAnalysis) : CliAnalysis :=
  match b with
  | CliBucket.deleted => { a with deleted := u :: a.deleted }
  | CliBucket.no_messages => { a with no_messages := u :: a.no_messages }
  | CliBucket.only_incoming => { a with only_incoming := u :: a.only_incoming }
  | CliBucket.bots => { a with bots := u :: a.bots }
  | CliBucket.scam => { a with scam := u :: a.scam }
  | CliBucket.fake => { a with fake := u :: a.fake }
  | CliBucket.active => { a with active := u :: a.active }

/-- `analyze_user_chats(users)` of the CLI: one bucket per user, no
budget, no per-person state. -/
def analyze_user_chats (probe : Probe) : List TLEntity → CliAnalysis
  | [] => emptyCliAnalysis
  | u :: rest => cliAdd (cli_bucket probe u) u (analyze_user_chats probe rest)

/-- Concatenation of all seven CLI buckets, in dictionary order. -/
def concatAllCli (a : CliAnalysis) : List TLEntity :=
  a.deleted ++ a.no_messages ++ a.only_incoming ++ a.bots ++ a.scam ++
    a.fake ++ a.active

/-- Membership predicate of the CLI `no_messages` bucket: unflagged and
the probe either raised or returned no messages. -/
def cliNoMsgP (probe : Probe) (c : TLEntity) : Bool :=
  !c.deleted && !c.bot && !c.scam && !c.fake &&
    (match probe c.id 10 with
     | Except.error _ => true
     | Except.ok msgs => msgs.length = 0)

/-- Whether a person is unflagged (none of the four risk flags set). -/
def unflagged (c : TLEntity) : Bool :=
  !c.deleted && !c.bot && !c.scam && !c.fake

/-- A plain person entity with the given id and no flags set. -/
def mkUser (i : Int) : TLEntity :=
  { id := i, cls := PyClass.user }

/-- A probe double that always succeeds with one outgoing message. -/
def probeAllOk : Probe := fun _ _ => Except.ok [⟨true⟩]

/-- Sixty otherwise-unflagged persons with ids 1..60 (the probe-budget
scenario of the spec). -/
def input60 : List TLEntity :=
  (List.range 60).map (fun i => mkUser ((i : Int) + 1))

/-- Fifty deleted-flagged persons with ids 1..50 followed by one plain
person with id 51 (the probed-count gating counterexample). -/
def cex51 : List TLEntity :=
  (List.range 50).map (fun i => { mkUser ((i : Int) + 1) with deleted := true }) ++
    [mkUser 51]

/-- The number of person entities in a dialog list (what the
`users_checked` counter has reached after scanning the list). -/
def personCount (l : List TLEntity) : Nat := (l.filter isUserEnt).length

/-- A person flagged both deleted and bot (the priority-order test case). -/
def botDeletedUser : TLEntity :=
  { id := 1, cls := PyClass.user, deleted := true, bot := true }

/-- A probe double that always raises. -/
def probeFail : Probe := fun _ _ => Except.error ()

/-! ## Single-chat delete endpoint (`delete_chat`, src/fastapi_manager.py
lines 2502-2527) -/

/-- Errors raised by the external client, as far as `delete_chat`
distinguishes them: a `FloodWaitError` carrying its wait seconds, the
not-found failure `get_entity` raises when the entity has vanished, or
any other error. The flood test in the code matches the exception type
name against "FloodWaitError" (or the lowercased message against
"flood"); the not-found and generic errors carry no flood marker in
either, so the test holds exactly for `floodWaitError`. -/
inductive TelethonError
  | floodWaitError (seconds : Nat)
  | notFoundError
  | other
deriving DecidableEq, Repr

/-- The flood-classification test of the `except` clause of
`delete_chat`. -/
def isFloodRelated : TelethonError → Bool
  | TelethonError.floodWaitError _ => true
  | _ => false

/-- The wait-time extraction: the first integer found in a
FloodWaitError message is its wait in seconds, with a fallback of 30
when no integer is found. -/
def floodWaitSeconds : TelethonError → Nat
  | TelethonError.floodWaitError s => s
  | _ => 30

/-- External client behaviour for one `delete_chat(chat_id)` call: what
`get_entity` and `delete_dialog` return or raise. -/
structure ClientModel where
  get_entity : Int → Except TelethonError TLEntity
  delete_dialog : TLEntity → Except TelethonError Unit

/-- HTTP outcome of the `delete_chat` endpoint: the 200 body
`{"success": true}`, the 429 response with a `retry_after` field, or a
`TelegramError` with its code (the installed exception handler renders
it as a 400 response). -/
inductive DeleteHttpOutcome
  | success
  | rateLimited (retry_after : Nat)
  | appError (code : String)
deriving DecidableEq, Repr

/-- The `except` clause of `delete_chat`: flood-related errors become
the 429 rate-limited response, every other error re-raises as
`TelegramError(str(e), "DELETE_ERROR")`. -/
def delete_chat_handle (e : TelethonError) : DeleteHttpOutcome :=
  if isFloodRelated e then DeleteHttpOutcome.rateLimited (floodWaitSeconds e)
  else DeleteHttpOutcome.appError "DELETE_ERROR"

/-- `delete_chat(chat_id)`: `get_entity`, then `delete_dialog`, with the
shared exception handler around both calls. -/
def delete_chat (client : ClientModel) (chat_id : Int) : DeleteHttpOutcome :=
  match client.get_entity chat_id with
  | Except.error e => delete_chat_handle e
  | Except.ok entity =>
    match client.delete_dialog entity with
    | Except.error e => delete_chat_handle e
    | Except.ok _ => DeleteHttpOutcome.success

/-- A client whose target entity has vanished between snapshot and
commit: `get_entity` raises the not-found error for every id. -/
def vanishedClient : ClientModel :=
  { get_entity := fun _ => Except.error TelethonError.notFoundError
    delete_dialog := fun _ => Except.ok () }

/-! ## Chat cache and export (`get_chats`, src/fastapi_manager.py lines
2380-2431; `export_data_endpoint`, lines 2531-2603) -/

/-- The plain dictionary `chat_data` that `get_chats` builds per dialog
entity. The display strings (`title`, `username`) and the `members`
count are not modelled: no claim depends on them, only on the runtime
type of the stored value and its flags. -/
structure ChatData where
  id : Int
  type : String
  is_deleted : Bool := false
  is_bot : Bool := false
  is_scam : Bool := false
deriving DecidableEq, Repr

/-- A value of `all_chats_cache`: either a plain dict (what `get_chats`
stores) or a telethon object (what the export filters test for with
`isinstance` against `User`/`Chat`/`Channel`). -/
inductive CacheItem
  | dict (d : ChatData)
  | pyObj (e : TLEntity)
deriving DecidableEq, Repr

/-- The `chat_data` construction of `get_chats`: branch on the entity's
runtime class and `broadcast` flag exactly as the endpoint does. -/
def chat_data_of (chat : TLEntity) : ChatData :=
  match chat.cls with
  | PyClass.user =>
      { id := chat.id, type := "user", is_deleted := chat.deleted,
        is_bot := chat.bot, is_scam := chat.scam }
  | PyClass.channel =>
      if chat.broadcast then { id := chat.id, type := "channel" }
      else { id := chat.id, type := "supergroup" }
  | _ => { id := chat.id, type := "group" }

/-- The `stats` dict of `get_chats`. -/
structure ChatStats where
  groups : Nat
  channels : Nat
  users : Nat
  total : Nat
deriving DecidableEq, Repr

/-- `get_chats`: iterate the dialogs, build one plain dict per entity,
count the stats, and store the dicts in `all_chats_cache` (the first
component is the cache contents, in input order). Every stored value is
a `CacheItem.dict`. -/
def get_chats : List TLEntity → List CacheItem × ChatStats
  | [] => ([], ⟨0, 0, 0, 0⟩)
  | chat :: rest =>
    let r := get_chats rest
    let s := r.2
    let s1 :=
      match chat.cls with
      | PyClass.user => { s with users := s.users + 1, total := s.total + 1 }
      | PyClass.channel =>
          if chat.broadcast then
            { s with channels := s.channels + 1, total := s.total + 1 }
          else { s with groups := s.groups + 1, total := s.total + 1 }
      | _ => { s with groups := s.groups + 1, total := s.total + 1 }
    (CacheItem.dict (chat_data_of chat) :: r.1, s1)

/-- The `groups` export filter over cache items:
`isinstance(c, (Chat, Channel)) and (getattr(c, "megagroup", False) or
isinstance(c, Chat))`. A plain dict fails the `isinstance` test. The
body `chat_to_dict(c)` of the comprehension (a name the module never
defines) is only evaluated for items passing this filter. -/
def exportGroupFilter : CacheItem → Bool
  | CacheItem.pyObj e =>
      (e.cls = PyClass.chat || e.cls = PyClass.channel) &&
        (e.megagroup || e.cls = PyClass.chat)
  | CacheItem.dict _ => false

/-- The `channels` export filter:
`isinstance(c, Channel) and not getattr(c, "megagroup", False)`. -/
def exportChannelFilter : CacheItem → Bool
  | CacheItem.pyObj e => e.cls = PyClass.channel && !e.megagroup
  | CacheItem.dict _ => false

/-- The `users` export filter: `isinstance(c, User)`. -/
def exportUserFilter : CacheItem → Bool
  | CacheItem.pyObj e => e.cls = PyClass.user
  | CacheItem.dict _ => false

/-! ## Client-side optimistic delete

Shallow embedding of the JavaScript in the FastAPI page:
`findChatById` (src/fastapi_manager.py lines 1628-1642), `deleteChat` and
`restoreChat` (lines 1654-1717), `undoDelete` (lines 1750-1776), and
`deleteSelected` with its bulk commit loop (lines 1267-1352). Timers and
awaited fetches are modelled as explicit events: a `deleteChat` arms a
pending record; `timerFireStart` is the timer callback issuing the fetch;
`fetchResolve` is the response arriving (the callback's remainder,
including its `finally`); `retryFire` is the re-invocation scheduled by
the rate-limit branch; `bulkTimerFire` is the bulk callback. -/

/-- Where a chat was found: the main `currentChats` list or one category
of `window.analysisData`. -/
inductive Source
  | main
  | analysis (category : String)
deriving DecidableEq, Repr

/-- One stored item of a bulk delete (`{ ...found, id }`). -/
structure StoredItem where
  id : Int
  chat : ChatData
  source : Source
deriving DecidableEq, Repr

/-- The value of one `pendingDeletes` entry: a single-delete record
(snapshot plus origin) or a bulk record holding the stored items. -/
inductive PendingVal
  | single (chat : ChatData) (source : Source)
  | bulk (items : List StoredItem)
deriving DecidableEq, Repr

/-- One `fetch('/api/delete/' + id)` outcome as the JS discriminates it:
HTTP ok, a non-ok response whose JSON carries `retry_after`, a non-ok
response without one, or a thrown network error. -/
inductive FetchResult
  | ok
  | rateLimited (retry_after : Nat)
  | httpError
  | netError
deriving DecidableEq, Repr

/-- The page state the delete/undo logic manipulates, with observation
logs: `deleteCalls` records every request issued to the delete endpoint
in order, `inFlight` the closure data of single commits whose fetch has
been issued but not resolved, `retryScheduled` the re-invocations of
`deleteChat` scheduled by the rate-limit branch. -/
structure UIState where
  currentChats : List ChatData
  analysisData : List (String × List ChatData)
  pendingDeletes : List (Int × PendingVal)
  selectedChats : List Int
  deleteCalls : List Int
  inFlight : List (Int × ChatData × Source)
  retryScheduled : List (Int × Nat)
deriving DecidableEq, Repr

/-- The analysis-category part of `findChatById`: scan the categories in
order and return the first one whose list contains the id. -/
def findInCats : List (String × List ChatData) → Int → Option (String × ChatData)
  | [], _ => none
  | (cat, l) :: rest, id =>
    match l.find? (fun c => c.id = id) with
    | some c => some (cat, c)
    | none => findInCats rest id

/-- `findChatById(id)`: the main list first, then the analysis data. -/
def findChatById (s : UIState) (id : Int) : Option (ChatData × Source) :=
  match s.currentChats.find? (fun c => c.id = id) with
  | some c => some (c, Source.main)
  | none =>
    match findInCats s.analysisData id with
    | some (cat, c) => some (c, Source.analysis cat)
    | none => none

/-- The optimistic removal: filter the id out of the source view it was
found in (`currentChats = currentChats.filter(...)` or
`analysisData[category] = analysisData[category].filter(...)`). -/
def removeFromSource (s : UIState) (id : Int) : Source → UIState
  | Source.main =>
      { s with currentChats := s.currentChats.filter (fun c => c.id ≠ id) }
  | Source.analysis cat =>
      { s with analysisData := s.analysisData.map (fun e =>
          if e.1 = cat then (e.1, e.2.filter (fun c => c.id ≠ id)) else e) }

/-- `restoreChat(chat, source, category)`: push the snapshot back onto
its origin view, creating a missing analysis category first as the JS
does. -/
def restoreChat (chat : ChatData) : Source → UIState → UIState
  | Source.main, s => { s with currentChats := s.currentChats ++ [chat] }
  | Source.analysis cat, s =>
      if s.analysisData.any (fun e => e.1 = cat) then
        { s with analysisData := s.analysisData.map (fun e =>
            if e.1 = cat then (e.1, e.2 ++ [chat]) else e) }
      else { s with analysisData := s.analysisData ++ [(cat, [chat])] }

/-- `pendingDeletes.set(id, v)`: update in place or insert at the end. -/
def pdSet (m : List (Int × PendingVal)) (id : Int) (v : PendingVal) :
    List (Int × PendingVal) :=
  if m.any (fun e => e.1 = id) then
    m.map (fun e => if e.1 = id then (id, v) else e)
  else m ++ [(id, v)]

/-- `pendingDeletes.delete(id)`. -/
def pdDelete (m : List (Int × PendingVal)) (id : Int) :
    List (Int × PendingVal) :=
  m.filter (fun e => e.1 ≠ id)

/-- `pendingDeletes.get(id)`. -/
def pdGet (m : List (Int × PendingVal)) (id : Int) : Option PendingVal :=
  (m.find? (fun e => e.1 = id)).map Prod.snd

/-- `deleteChat(id, title)` up to its `setTimeout`: find the chat (a
no-op when absent), remove it optimistically from its origin view, drop
it from the selection, and arm a single `PendingDelete` carrying the
snapshot and origin. No network request is issued yet. -/
def deleteChat (s : UIState) (id : Int) : UIState :=
  match findChatById s id with
  | none => s
  | some (chat, src) =>
    let s1 := removeFromSource s id src
    let s2 := { s1 with selectedChats := s1.selectedChats.filter (fun i => i ≠ id) }
    { s2 with pendingDeletes := pdSet s2.pendingDeletes id (PendingVal.single chat src) }

/-- The single-delete timer firing: the commit begins by issuing the
fetch. The pending record stays in the map — the callback only deletes
it in its `finally`, after the response. The event is enabled only for
an armed single record whose fetch is not already in flight; otherwise
the state is unchanged (a cleared or already-consumed timer). -/
def timerFireStart (s : UIState) (id : Int) : UIState :=
  match pdGet s.pendingDeletes id with
  | some (PendingVal.single chat src) =>
    if s.inFlight.any (fun e => e.1 = id) then s
    else
      { s with deleteCalls := s.deleteCalls ++ [id],
               inFlight := s.inFlight ++ [(id, chat, src)] }
  | _ => s

/-- The single-delete fetch resolving: on `response.ok` nothing is
restored; on a `retry_after` response a re-invocation of `deleteChat` is
scheduled; on any other failure or a thrown error the snapshot is
restored from the closure data; in every case the `finally` clause then
removes the pending record. -/
def fetchResolve (s : UIState) (id : Int) (resp : FetchResult) : UIState :=
  match s.inFlight.find? (fun e => e.1 = id) with
  | none => s
  | some entry =>
    let s1 := { s with inFlight := s.inFlight.filter (fun e => e.1 ≠ id) }
    let s2 :=
      match resp with
      | FetchResult.ok => s1
      | FetchResult.rateLimited t =>
          { s1 with retryScheduled := s1.retryScheduled ++ [(id, t)] }
      | FetchResult.httpError => restoreChat entry.2.1 entry.2.2 s1
      | FetchResult.netError => restoreChat entry.2.1 entry.2.2 s1
    { s2 with pendingDeletes := pdDelete s2.pendingDeletes id }

/-- The scheduled rate-limit retry firing: it just calls
`deleteChat(id, title)` again. -/
def retryFire (s : UIState) (id : Int) : UIState :=
  if s.retryScheduled.any (fun e => e.1 = id) then
    deleteChat
      { s with retryScheduled := s.retryScheduled.filter (fun e => e.1 ≠ id) } id
  else s

/-- `undoDelete(id)`: nothing without a pending record; otherwise cancel
the timer, drop the record, and restore the snapshot(s) to their origin
views (`pending.items` for a bulk record). -/
def undoDelete (s : UIState) (id : Int) : UIState :=
  match pdGet s.pendingDeletes id with
  | none => s
  | some v =>
    let s1 := { s with pendingDeletes := pdDelete s.pendingDeletes id }
    match v with
    | PendingVal.single chat src => restoreChat chat src s1
    | PendingVal.bulk items =>
        items.foldl (fun st it => restoreChat it.chat it.source st) s1

/-- The stored-items gathering of `deleteSelected`: one lookup per
selected id against the pre-removal state. -/
def gatherStored (s : UIState) (ids : List Int) : List StoredItem :=
  ids.filterMap (fun id => (findChatById s id).map (fun p => ⟨id, p.1, p.2⟩))

/-- The optimistic bulk removal: drop each stored item from its origin
view, in order. -/
def removeStored (s : UIState) (items : List StoredItem) : UIState :=
  items.foldl (fun st it => removeFromSource st it.id it.source) s

/-- `deleteSelected` up to its `setTimeout`: gather the stored items,
remove each found chat from its view, clear the selection, and arm one
bulk `PendingDelete` under `bulkId`. -/
def deleteSelected (s : UIState) (ids : List Int) (bulkId : Int) : UIState :=
  let stored := gatherStored s ids
  let s1 := removeStored s stored
  let s2 := { s1 with selectedChats := [] }
  { s2 with pendingDeletes := pdSet s2.pendingDeletes bulkId (PendingVal.bulk stored) }

/-- Per-item accounting of the bulk commit loop: the `deleted` and
`failed` counters and the delete requests issued, in order. -/
structure BulkResult where
  deleted : Nat
  failed : Nat
  calls : List Int
deriving DecidableEq, Repr

/-- The commit loop of the bulk callback. `respond id k` is the outcome
of the k-th fetch for `id` (0 the first attempt, 1 the rate-limit
retry); `cancelled i` is the `bulkDeleteCancelled` flag as read before
processing position `i`. An ok response counts `deleted`; a
`retry_after` response sleeps and issues exactly one retry whose
outcome is ignored unless the retry itself throws (the surrounding
`catch` then counts `failed`); other failures and thrown errors count
`failed`. Cancellation breaks out of the loop without touching the
views. -/
def bulkLoop (respond : Int → Nat → FetchResult) (cancelled : Nat → Bool) :
    List Int → Nat → BulkResult
  | [], _ => ⟨0, 0, []⟩
  | id :: rest, i =>
    if cancelled i then ⟨0, 0, []⟩
    else
      let step : Nat × Nat × List Int :=
        match respond id 0 with
        | FetchResult.ok => (1, 0, [id])
        | FetchResult.rateLimited _ =>
          match respond id 1 with
          | FetchResult.netError => (0, 1, [id, id])
          | _ => (0, 0, [id, id])
        | FetchResult.httpError => (0, 1, [id])
        | FetchResult.netError => (0, 1, [id])
      let r := bulkLoop respond cancelled rest (i + 1)
      ⟨step.1 + r.deleted, step.2.1 + r.failed, step.2.2 ++ r.calls⟩

/-- The bulk timer firing: the callback removes the bulk pending record
first, then runs the commit loop; the loop never restores unprocessed
items to any view. -/
def bulkTimerFire (s : UIState) (bulkId : Int) (toDeleteIds : List Int)
    (respond : Int → Nat → FetchResult) (cancelled : Nat → Bool) :
    UIState × BulkResult :=
  let s1 := { s with pendingDeletes := pdDelete s.pendingDeletes bulkId }
  let r := bulkLoop respond cancelled toDeleteIds 0
  ({ s1 with deleteCalls := s1.deleteCalls ++ r.calls }, r)

/-- Two plain chats used by the concrete delete scenarios. -/
def chatA : ChatData := { id := 1, type := "user" }

def chatB : ChatData := { id := 2, type := "user" }

/-- Initial page state for the single-delete scenarios: one chat in the
main list. -/
def s0Single : UIState :=
  { currentChats := [chatA], analysisData := [], pendingDeletes := [],
    selectedChats := [], deleteCalls := [], inFlight := [], retryScheduled := [] }

/-- Initial page state for the bulk scenario: two chats in the main
list, both selected. -/
def s0Bulk : UIState :=
  { currentChats := [chatA, chatB], analysisData := [], pendingDeletes := [],
    selectedChats := [1, 2], deleteCalls := [], inFlight := [], retryScheduled := [] }

/-- A responder for which every delete request succeeds. -/
def respondOk : Int → Nat → FetchResult := fun _ _ => FetchResult.ok

/-- A responder that rate-limits every attempt with retry-after 5. -/
def respondFlood : Int → Nat → FetchResult := fun _ _ => FetchResult.rateLimited 5

/-- The cancel flag for the two-entity scenario: still false before the
first item, set before the second. -/
def cancelAfterFirst : Nat → Bool := fun i => 1 ≤ i

/-- The never-cancelled flag. -/
def noCancel : Nat → Bool := fun _ => false

theorem categorize5_users (l : List TLEntity) :
    (categorize5 l).users = l.filter isUserEnt := by
  induction l with
  | nil => rfl
  | cons c rest ih =>
    simp only [categorize5, List.filter]
    cases h : c.cls <;>
      simp [isUserEnt, h, ih] <;> cases hb : c.broadcast <;>
        simp [hb] <;> cases hm : c.megagroup <;> simp [hm, ih]

theorem categorize5_basic (l : List TLEntity) :
    (categorize5 l).basic_groups = l.filter isBasicGroupEnt := by
  induction l with
  | nil => rfl
  | cons c rest ih =>
    simp only [categorize5, List.filter]
    cases h : c.cls <;>
      simp [isBasicGroupEnt, h, ih] <;> cases hb : c.broadcast <;>
        simp [hb] <;> cases hm : c.megagroup <;> simp [hm, ih]

theorem categorize5_super (l : List TLEntity) :
    (categorize5 l).supergroups = l.filter isSupergroupEnt := by
  induction l with
  | nil => rfl
  | cons c rest ih =>
    simp only [categorize5, List.filter]
    cases h : c.cls <;>
      simp [isSupergroupEnt, h, ih] <;> cases hb : c.broadcast <;>
        simp [hb] <;> cases hm : c.megagroup <;> simp [hm, ih]

theorem categorize5_channels (l : List TLEntity) :
    (categorize5 l).channels = l.filter isChannelEnt := by
  induction l with
  | nil => rfl
  | cons c rest ih =>
    simp only [categorize5, List.filter]
    cases h : c.cls <;>
      simp [isChannelEnt, h, ih] <;> cases hb : c.broadcast <;>
        simp [hb] <;> cases hm : c.megagroup <;> simp [hm, ih]

theorem categorize5_unknown (l : List TLEntity) :
    (categorize5 l).unknown = l.filter isUnknownEnt := by
  induction l with
  | nil => rfl
  | cons c rest ih =>
    simp only [categorize5, List.filter]
    cases h : c.cls <;>
      simp [isUnknownEnt, h, ih] <;> cases hb : c.broadcast <;>
        simp [hb] <;> cases hm : c.megagroup <;> simp [hm, ih]

theorem filters_total (l : List TLEntity) :
    (l.filter isUserEnt).length + (l.filter isBasicGroupEnt).length +
      (l.filter isSupergroupEnt).length + (l.filter isChannelEnt).length +
      (l.filter isUnknownEnt).length = l.length := by
  induction l with
  | nil => rfl
  | cons c rest ih =>
    simp only [List.filter_cons]
    cases h : c.cls <;> cases hb : c.broadcast <;>
      simp [isUserEnt, isBasicGroupEnt, isSupergroupEnt, isChannelEnt,
        isUnknownEnt, h, hb] <;> omega

theorem categorize5_total (l : List TLEntity) :
    (categorize5 l).users.length + (categorize5 l).basic_groups.length +
      (categorize5 l).supergroups.length + (categorize5 l).channels.length +
      (categorize5 l).unknown.length = l.length := by
  rw [categorize5_users, categorize5_basic, categorize5_super,
    categorize5_channels, categorize5_unknown]
  exact filters_total l

/-- C1: for every input list, `categorize_chats` is a partition: the five
primary buckets `users`, `basic_groups`, `supergroups`, `channels`,
`unknown` have lengths summing to the input length; the derived `groups`
bucket is exactly the concatenation `basic_groups ++ supergroups`, those
two sides are disjoint (no entity satisfies both membership predicates, so
the union introduces no duplicate), and `groups` does not enter the total:
`groups.length = basic_groups.length + supergroups.length`. -/
theorem classify_partitions (chats : List TLEntity) :
    ((categorize_chats chats).users.length +
      (categorize_chats chats).basic_groups.length +
      (categorize_chats chats).supergroups.length +
      (categorize_chats chats).channels.length +
      (categorize_chats chats).unknown.length = chats.length) ∧
    ((categorize_chats chats).groups =
      (categorize_chats chats).basic_groups ++ (categorize_chats chats).supergroups) ∧
    (∀ c, c ∈ (categorize_chats chats).basic_groups →
      c ∉ (categorize_chats chats).supergroups) ∧
    ((categorize_chats chats).groups.length =
      (categorize_chats chats).basic_groups.length +
        (categorize_chats chats).supergroups.length) := by
  refine ⟨?_, rfl, ?_, ?_⟩
  · simpa [categorize_chats] using categorize5_total chats
  · intro c hc hs
    have hb : isBasicGroupEnt c = true := by
      have := (List.mem_filter.mp (by
        simpa [categorize_chats, categorize5_basic] using hc)).2
      exact this
    have hsup : isSupergroupEnt c = true := by
      have := (List.mem_filter.mp (by
        simpa [categorize_chats, categorize5_super] using hs)).2
      exact this
    simp [isBasicGroupEnt, isSupergroupEnt] at hb hsup
    rw [hb] at hsup
    simp at hsup
  · simp [categorize_chats]

/-! ### Analyzer helper lemmas -/

theorem faAdd_deleted (b : FaBucket) (u : TLEntity) (a : Analysis) :
    (faAdd b u a).deleted =
      if b = FaBucket.deleted then u :: a.deleted else a.deleted := by
  cases b <;> rfl

theorem faAdd_no_messages (b : FaBucket) (u : TLEntity) (a : Analysis) :
    (faAdd b u a).no_messages =
      if b = FaBucket.no_messages then u :: a.no_messages else a.no_messages := by
  cases b <;> rfl

theorem faAdd_bots (b : FaBucket) (u : TLEntity) (a : Analysis) :
    (faAdd b u a).bots =
      if b = FaBucket.bots then u :: a.bots else a.bots := by
  cases b <;> rfl

theorem faAdd_scam (b : FaBucket) (u : TLEntity) (a : Analysis) :
    (faAdd b u a).scam =
      if b = FaBucket.scam then u :: a.scam else a.scam := by
  cases b <;> rfl

theorem faAdd_fake (b : FaBucket) (u : TLEntity) (a : Analysis) :
    (faAdd b u a).fake =
      if b = FaBucket.fake then u :: a.fake else a.fake := by
  cases b <;> rfl

theorem faAdd_active (b : FaBucket) (u : TLEntity) (a : Analysis) :
    (faAdd b u a).active =
      if b = FaBucket.active then u :: a.active else a.active := by
  cases b <;> rfl

theorem fa_bucket_eq_deleted (probe : Probe) (u : TLEntity) (n : Nat)
    (h : u.deleted = true) : fa_bucket probe u n = FaBucket.deleted := by
  simp [fa_bucket, h]

theorem fa_bucket_eq_bots (probe : Probe) (u : TLEntity) (n : Nat)
    (hd : u.deleted = false) (hb : u.bot = true) :
    fa_bucket probe u n = FaBucket.bots := by
  simp [fa_bucket, hd, hb]

theorem fa_bucket_eq_scam (probe : Probe) (u : TLEntity) (n : Nat)
    (hd : u.deleted = false) (hb : u.bot = false) (hs : u.scam = true) :
    fa_bucket probe u n = FaBucket.scam := by
  simp [fa_bucket, hd, hb, hs]

theorem fa_bucket_eq_fake (probe : Probe) (u : TLEntity) (n : Nat)
    (hd : u.deleted = false) (hb : u.bot = false) (hs : u.scam = false)
    (hf : u.fake = true) : fa_bucket probe u n = FaBucket.fake := by
  simp [fa_bucket, hd, hb, hs, hf]

theorem fa_bucket_unflagged (probe : Probe) (u : TLEntity) (n : Nat)
    (hd : u.deleted = false) (hb : u.bot = false) (hs : u.scam = false)
    (hf : u.fake = false) :
    fa_bucket probe u n = FaBucket.no_messages ∨
      fa_bucket probe u n = FaBucket.active := by
  simp only [fa_bucket, hd, hb, hs, hf, Bool.false_eq_true, if_false]
  by_cases hn : n ≤ 50
  · rw [if_pos hn]
    rcases probe u.id 1 with _ | msgs
    · exact Or.inl rfl
    · by_cases hm : msgs.length = 0
      · simp [hm]
      · simp [hm]
  · rw [if_neg hn]
    exact Or.inr rfl

theorem fa_bucket_ne_deleted (probe : Probe) (u : TLEntity) (n : Nat)
    (h : u.deleted = false) : fa_bucket probe u n ≠ FaBucket.deleted := by
  by_cases hb : u.bot
  · rw [fa_bucket_eq_bots probe u n h hb]; intro hc; cases hc
  · by_cases hs : u.scam
    · rw [fa_bucket_eq_scam probe u n h (by simpa using hb) hs]
      intro hc; cases hc
    · by_cases hf : u.fake
      · rw [fa_bucket_eq_fake probe u n h (by simpa using hb)
          (by simpa using hs) hf]
        intro hc; cases hc
      · rcases fa_bucket_unflagged probe u n h (by simpa using hb)
          (by simpa using hs) (by simpa using hf) with h1 | h1 <;>
          rw [h1] <;> intro hc <;> cases hc

theorem fa_bucket_ne_bots (probe : Probe) (u : TLEntity) (n : Nat)
    (h : u.bot = false) : fa_bucket probe u n ≠ FaBucket.bots := by
  by_cases hd : u.deleted
  · rw [fa_bucket_eq_deleted probe u n hd]; intro hc; cases hc
  · by_cases hs : u.scam
    · rw [fa_bucket_eq_scam probe u n (by simpa using hd) h hs]
      intro hc; cases hc
    · by_cases hf : u.fake
      · rw [fa_bucket_eq_fake probe u n (by simpa using hd) h
          (by simpa using hs) hf]
        intro hc; cases hc
      · rcases fa_bucket_unflagged probe u n (by simpa using hd) h
          (by simpa using hs) (by simpa using hf) with h1 | h1 <;>
          rw [h1] <;> intro hc <;> cases hc

theorem fa_bucket_ne_scam (probe : Probe) (u : TLEntity) (n : Nat)
    (h : u.scam = false) : fa_bucket probe u n ≠ FaBucket.scam := by
  by_cases hd : u.deleted
  · rw [fa_bucket_eq_deleted probe u n hd]; intro hc; cases hc
  · by_cases hb : u.bot
    · rw [fa_bucket_eq_bots probe u n (by simpa using hd) hb]
      intro hc; cases hc
    · by_cases hf : u.fake
      · rw [fa_bucket_eq_fake probe u n (by simpa using hd)
          (by simpa using hb) h hf]
        intro hc; cases hc
      · rcases fa_bucket_unflagged probe u n (by simpa using hd)
          (by simpa using hb) h (by simpa using hf) with h1 | h1 <;>
          rw [h1] <;> intro hc <;> cases hc

theorem fa_bucket_ne_fake (probe : Probe) (u : TLEntity) (n : Nat)
    (h : u.fake = false) : fa_bucket probe u n ≠ FaBucket.fake := by
  by_cases hd : u.deleted
  · rw [fa_bucket_eq_deleted probe u n hd]; intro hc; cases hc
  · by_cases hb : u.bot
    · rw [fa_bucket_eq_bots probe u n (by simpa using hd) hb]
      intro hc; cases hc
    · by_cases hs : u.scam
      · rw [fa_bucket_eq_scam probe u n (by simpa using hd)
          (by simpa using hb) hs]
        intro hc; cases hc
      · rcases fa_bucket_unflagged probe u n (by simpa using hd)
          (by simpa using hb) (by simpa using hs) h with h1 | h1 <;>
          rw [h1] <;> intro hc <;> cases hc

theorem faAdd_concat_perm (b : FaBucket) (u : TLEntity) (a : Analysis) :
    (concatAll (faAdd b u a)).Perm (u :: concatAll a) := by
  refine List.perm_iff_count.mpr fun x => ?_
  cases b <;>
    simp [faAdd, concatAll, List.count_append, List.count_cons] <;> omega

theorem analyzeGo_perm (probe : Probe) (l : List TLEntity) (n : Nat) :
    (concatAll (analyzeGo probe l n).1).Perm (l.filter isUserEnt) := by
  induction l generalizing n with
  | nil => simp [analyzeGo, emptyAnalysis, concatAll]
  | cons d rest ih =>
    by_cases hu : d.cls = PyClass.user
    · simp only [analyzeGo, if_pos hu, List.filter_cons]
      have hp : isUserEnt d = true := by simp [isUserEnt, hu]
      rw [hp]
      simp only [ite_true]
      exact (faAdd_concat_perm _ d _).trans ((ih (n + 1)).cons d)
    · simp only [analyzeGo, if_neg hu, List.filter_cons]
      have hp : isUserEnt d = false := by simp [isUserEnt, hu]
      rw [hp]
      simp only [Bool.false_eq_true, if_false]
      exact ih n

theorem analyzeGo_deleted (probe : Probe) (l : List TLEntity) (n : Nat) :
    (analyzeGo probe l n).1.deleted = l.filter faDeletedP := by
  induction l generalizing n with
  | nil => rfl
  | cons d rest ih =>
    by_cases hu : d.cls = PyClass.user
    · simp only [analyzeGo, if_pos hu, List.filter_cons, faAdd_deleted]
      by_cases hd : d.deleted
      · rw [fa_bucket_eq_deleted probe d (n + 1) hd]
        simp [faDeletedP, isUserEnt, hu, hd, ih]
      · rw [if_neg (fa_bucket_ne_deleted probe d (n + 1) (by simpa using hd))]
        simp [faDeletedP, isUserEnt, hu, hd, ih]
    · simp only [analyzeGo, if_neg hu, List.filter_cons]
      have hp : faDeletedP d = false := by simp [faDeletedP, isUserEnt, hu]
      rw [hp]
      simp only [Bool.false_eq_true, if_false]
      exact ih n

theorem analyzeGo_bots (probe : Probe) (l : List TLEntity) (n : Nat) :
    (analyzeGo probe l n).1.bots = l.filter faBotP := by
  induction l generalizing n with
  | nil => rfl
  | cons d rest ih =>
    by_cases hu : d.cls = PyClass.user
    · simp only [analyzeGo, if_pos hu, List.filter_cons, faAdd_bots]
      by_cases hb : d.bot
      · by_cases hd : d.deleted
        · rw [if_neg (by rw [fa_bucket_eq_deleted probe d (n + 1) hd]; intro hc; cases hc)]
          simp [faBotP, isUserEnt, hu, hd, hb, ih]
        · rw [fa_bucket_eq_bots probe d (n + 1) (by simpa using hd) hb]
          simp [faBotP, isUserEnt, hu, hd, hb, ih]
      · rw [if_neg (fa_bucket_ne_bots probe d (n + 1) (by simpa using hb))]
        simp [faBotP, isUserEnt, hu, hb, ih]
    · simp only [analyzeGo, if_neg hu, List.filter_cons]
      have hp : faBotP d = false := by simp [faBotP, isUserEnt, hu]
      rw [hp]
      simp only [Bool.false_eq_true, if_false]
      exact ih n

theorem analyzeGo_scam (probe : Probe) (l : List TLEntity) (n : Nat) :
    (analyzeGo probe l n).1.scam = l.filter faScamP := by
  induction l generalizing n with
  | nil => rfl
  | cons d rest ih =>
    by_cases hu : d.cls = PyClass.user
    · simp only [analyzeGo, if_pos hu, List.filter_cons, faAdd_scam]
      by_cases hs : d.scam
      · by_cases hd : d.deleted
        · rw [if_neg (by rw [fa_bucket_eq_deleted probe d (n + 1) hd]; intro hc; cases hc)]
          simp [faScamP, isUserEnt, hu, hd, hs, ih]
        · by_cases hb : d.bot
          · rw [if_neg (by rw [fa_bucket_eq_bots probe d (n + 1) (by simpa using hd) hb]; intro hc; cases hc)]
            simp [faScamP, isUserEnt, hu, hd, hb, hs, ih]
          · rw [fa_bucket_eq_scam probe d (n + 1) (by simpa using hd) (by simpa using hb) hs]
            simp [faScamP, isUserEnt, hu, hd, hb, hs, ih]
      · rw [if_neg (fa_bucket_ne_scam probe d (n + 1) (by simpa using hs))]
        simp [faScamP, isUserEnt, hu, hs, ih]
    · simp only [analyzeGo, if_neg hu, List.filter_cons]
      have hp : faScamP d = false := by simp [faScamP, isUserEnt, hu]
      rw [hp]
      simp only [Bool.false_eq_true, if_false]
      exact ih n

theorem analyzeGo_fake (probe : Probe) (l : List TLEntity) (n : Nat) :
    (analyzeGo probe l n).1.fake = l.filter faFakeP := by
  induction l generalizing n with
  | nil => rfl
  | cons d rest ih =>
    by_cases hu : d.cls = PyClass.user
    · simp only [analyzeGo, if_pos hu, List.filter_cons, faAdd_fake]
      by_cases hf : d.fake
      · by_cases hd : d.deleted
        · rw [if_neg (by rw [fa_bucket_eq_deleted probe d (n + 1) hd]; intro hc; cases hc)]
          simp [faFakeP, isUserEnt, hu, hd, hf, ih]
        · by_cases hb : d.bot
          · rw [if_neg (by rw [fa_bucket_eq_bots probe d (n + 1) (by simpa using hd) hb]; intro hc; cases hc)]
            simp [faFakeP, isUserEnt, hu, hd, hb, hf, ih]
          · by_cases hs : d.scam
            · rw [if_neg (by rw [fa_bucket_eq_scam probe d (n + 1) (by simpa using hd) (by simpa using hb) hs]; intro hc; cases hc)]
              simp [faFakeP, isUserEnt, hu, hd, hb, hs, hf, ih]
            · rw [fa_bucket_eq_fake probe d (n + 1) (by simpa using hd) (by simpa using hb) (by simpa using hs) hf]
              simp [faFakeP, isUserEnt, hu, hd, hb, hs, hf, ih]
      · rw [if_neg (fa_bucket_ne_fake probe d (n + 1) (by simpa using hf))]
        simp [faFakeP, isUserEnt, hu, hf, ih]
    · simp only [analyzeGo, if_neg hu, List.filter_cons]
      have hp : faFakeP d = false := by simp [faFakeP, isUserEnt, hu]
      rw [hp]
      simp only [Bool.false_eq_true, if_false]
      exact ih n

theorem cliAdd_deleted (b : CliBucket) (u : TLEntity) (a : CliAnalysis) :
    (cliAdd b u a).deleted =
      if b = CliBucket.deleted then u :: a.deleted else a.deleted := by
  cases b <;> rfl

theorem cliAdd_no_messages (b : CliBucket) (u : TLEntity) (a : CliAnalysis) :
    (cliAdd b u a).no_messages =
      if b = CliBucket.no_messages then u :: a.no_messages else a.no_messages := by
  cases b <;> rfl

theorem cliAdd_bots (b : CliBucket) (u : TLEntity) (a : CliAnalysis) :
    (cliAdd b u a).bots =
      if b = CliBucket.bots then u :: a.bots else a.bots := by
  cases b <;> rfl

theorem cliAdd_scam (b : CliBucket) (u : TLEntity) (a : CliAnalysis) :
    (cliAdd b u a).scam =
      if b = CliBucket.scam then u :: a.scam else a.scam := by
  cases b <;> rfl

theorem cliAdd_fake (b : CliBucket) (u : TLEntity) (a : CliAnalysis) :
    (cliAdd b u a).fake =
      if b = CliBucket.fake then u :: a.fake else a.fake := by
  cases b <;> rfl

theorem cli_bucket_eq_deleted (probe : Probe) (u : TLEntity)
    (h : u.deleted = true) : cli_bucket probe u = CliBucket.deleted := by
  simp [cli_bucket, h]

theorem cli_bucket_eq_bots (probe : Probe) (u : TLEntity)
    (hd : u.deleted = false) (hb : u.bot = true) :
    cli_bucket probe u = CliBucket.bots := by
  simp [cli_bucket, hd, hb]

theorem cli_bucket_eq_scam (probe : Probe) (u : TLEntity)
    (hd : u.deleted = false) (hb : u.bot = false) (hs : u.scam = true) :
    cli_bucket probe u = CliBucket.scam := by
  simp [cli_bucket, hd, hb, hs]

theorem cli_bucket_eq_fake (probe : Probe) (u : TLEntity)
    (hd : u.deleted = false) (hb : u.bot = false) (hs : u.scam = false)
    (hf : u.fake = true) : cli_bucket probe u = CliBucket.fake := by
  simp [cli_bucket, hd, hb, hs, hf]

theorem cli_bucket_unflagged (probe : Probe) (u : TLEntity)
    (hd : u.deleted = false) (hb : u.bot = false) (hs : u.scam = false)
    (hf : u.fake = false) :
    cli_bucket probe u = CliBucket.no_messages ∨
      cli_bucket probe u = CliBucket.only_incoming ∨
      cli_bucket probe u = CliBucket.active := by
  simp only [cli_bucket, hd, hb, hs, hf, Bool.false_eq_true, if_false]
  rcases probe u.id 10 with _ | msgs
  · exact Or.inl rfl
  · by_cases hm : msgs.length = 0
    · simp [hm]
    · by_cases ho : msgs.any (fun m => m.out)
      · simp [hm, ho]
      · simp [hm, ho]

theorem cli_bucket_unflagged_val (probe : Probe) (u : TLEntity)
    (hd : u.deleted = false) (hb : u.bot = false) (hs : u.scam = false)
    (hf : u.fake = false) :
    (cli_bucket probe u = CliBucket.no_messages ↔
      (match probe u.id 10 with
       | Except.error _ => true
       | Except.ok msgs => decide (msgs.length = 0)) = true) := by
  simp only [cli_bucket, hd, hb, hs, hf, Bool.false_eq_true, if_false]
  rcases probe u.id 10 with _ | msgs
  · simp
  · by_cases hm : msgs.length = 0
    · simp [hm]
    · by_cases ho : msgs.any (fun m => m.out)
      · simp [hm, ho]
      · simp [hm, ho]

theorem cliAdd_concat_perm (b : CliBucket) (u : TLEntity) (a : CliAnalysis) :
    (concatAllCli (cliAdd b u a)).Perm (u :: concatAllCli a) := by
  refine List.perm_iff_count.mpr fun x => ?_
  cases b <;>
    simp [cliAdd, concatAllCli, List.count_append, List.count_cons] <;> omega

theorem analyze_user_chats_perm (probe : Probe) (users : List TLEntity) :
    (concatAllCli (analyze_user_chats probe users)).Perm users := by
  induction users with
  | nil => simp [analyze_user_chats, emptyCliAnalysis, concatAllCli]
  | cons u rest ih =>
    simp only [analyze_user_chats]
    exact (cliAdd_concat_perm _ u _).trans (ih.cons u)

theorem analyze_user_chats_deleted (probe : Probe) (users : List TLEntity) :
    (analyze_user_chats probe users).deleted =
      users.filter (fun u => u.deleted) := by
  induction users with
  | nil => rfl
  | cons u rest ih =>
    simp only [analyze_user_chats, List.filter_cons, cliAdd_deleted]
    by_cases hd : u.deleted
    · rw [cli_bucket_eq_deleted probe u hd]
      simp [hd, ih]
    · have hne : cli_bucket probe u ≠ CliBucket.deleted := by
        by_cases hb : u.bot
        · rw [cli_bucket_eq_bots probe u (by simpa using hd) hb]
          intro hc; cases hc
        · by_cases hs : u.scam
          · rw [cli_bucket_eq_scam probe u (by simpa using hd) (by simpa using hb) hs]
            intro hc; cases hc
          · by_cases hf : u.fake
            · rw [cli_bucket_eq_fake probe u (by simpa using hd) (by simpa using hb) (by simpa using hs) hf]
              intro hc; cases hc
            · rcases cli_bucket_unflagged probe u (by simpa using hd) (by simpa using hb) (by simpa using hs) (by simpa using hf) with h1 | h1 | h1 <;>
                rw [h1] <;> intro hc <;> cases hc
      rw [if_neg hne]
      simp [hd, ih]

theorem analyze_user_chats_bots (probe : Probe) (users : List TLEntity) :
    (analyze_user_chats probe users).bots =
      users.filter (fun u => !u.deleted && u.bot) := by
  induction users with
  | nil => rfl
  | cons u rest ih =>
    simp only [analyze_user_chats, List.filter_cons, cliAdd_bots]
    by_cases hd : u.deleted
    · rw [if_neg (by rw [cli_bucket_eq_deleted probe u hd]; intro hc; cases hc)]
      simp [hd, ih]
    · by_cases hb : u.bot
      · rw [cli_bucket_eq_bots probe u (by simpa using hd) hb]
        simp [hd, hb, ih]
      · have hne : cli_bucket probe u ≠ CliBucket.bots := by
          by_cases hs : u.scam
          · rw [cli_bucket_eq_scam probe u (by simpa using hd) (by simpa using hb) hs]
            intro hc; cases hc
          · by_cases hf : u.fake
            · rw [cli_bucket_eq_fake probe u (by simpa using hd) (by simpa using hb) (by simpa using hs) hf]
              intro hc; cases hc
            · rcases cli_bucket_unflagged probe u (by simpa using hd) (by simpa using hb) (by simpa using hs) (by simpa using hf) with h1 | h1 | h1 <;>
                rw [h1] <;> intro hc <;> cases hc
        rw [if_neg hne]
        simp [hd, hb, ih]

theorem analyze_user_chats_scam (probe : Probe) (users : List TLEntity) :
    (analyze_user_chats probe users).scam =
      users.filter (fun u => !u.deleted && !u.bot && u.scam) := by
  induction users with
  | nil => rfl
  | cons u rest ih =>
    simp only [analyze_user_chats, List.filter_cons, cliAdd_scam]
    by_cases hd : u.deleted
    · rw [if_neg (by rw [cli_bucket_eq_deleted probe u hd]; intro hc; cases hc)]
      simp [hd, ih]
    · by_cases hb : u.bot
      · rw [if_neg (by rw [cli_bucket_eq_bots probe u (by simpa using hd) hb]; intro hc; cases hc)]
        simp [hd, hb, ih]
      · by_cases hs : u.scam
        · rw [cli_bucket_eq_scam probe u (by simpa using hd) (by simpa using hb) hs]
          simp [hd, hb, hs, ih]
        · have hne : cli_bucket probe u ≠ CliBucket.scam := by
            by_cases hf : u.fake
            · rw [cli_bucket_eq_fake probe u (by simpa using hd) (by simpa using hb) (by simpa using hs) hf]
              intro hc; cases hc
            · rcases cli_bucket_unflagged probe u (by simpa using hd) (by simpa using hb) (by simpa using hs) (by simpa using hf) with h1 | h1 | h1 <;>
                rw [h1] <;> intro hc <;> cases hc
          rw [if_neg hne]
          simp [hd, hb, hs, ih]

theorem analyze_user_chats_fake (probe : Probe) (users : List TLEntity) :
    (analyze_user_chats probe users).fake =
      users.filter (fun u => !u.deleted && !u.bot && !u.scam && u.fake) := by
  induction users with
  | nil => rfl
  | cons u rest ih =>
    simp only [analyze_user_chats, List.filter_cons, cliAdd_fake]
    by_cases hd : u.deleted
    · rw [if_neg (by rw [cli_bucket_eq_deleted probe u hd]; intro hc; cases hc)]
      simp [hd, ih]
    · by_cases hb : u.bot
      · rw [if_neg (by rw [cli_bucket_eq_bots probe u (by simpa using hd) hb]; intro hc; cases hc)]
        simp [hd, hb, ih]
      · by_cases hs : u.scam
        · rw [if_neg (by rw [cli_bucket_eq_scam probe u (by simpa using hd) (by simpa using hb) hs]; intro hc; cases hc)]
          simp [hd, hb, hs, ih]
        · by_cases hf : u.fake
          · rw [cli_bucket_eq_fake probe u (by simpa using hd) (by simpa using hb) (by simpa using hs) hf]
            simp [hd, hb, hs, hf, ih]
          · have hne : cli_bucket probe u ≠ CliBucket.fake := by
              rcases cli_bucket_unflagged probe u (by simpa using hd) (by simpa using hb) (by simpa using hs) (by simpa using hf) with h1 | h1 | h1 <;>
                rw [h1] <;> intro hc <;> cases hc
            rw [if_neg hne]
            simp [hd, hb, hs, hf, ih]

theorem analyze_user_chats_no_messages (probe : Probe) (users : List TLEntity) :
    (analyze_user_chats probe users).no_messages =
      users.filter (cliNoMsgP probe) := by
  induction users with
  | nil => rfl
  | cons u rest ih =>
    simp only [analyze_user_chats, List.filter_cons, cliAdd_no_messages]
    by_cases hd : u.deleted
    · rw [if_neg (by rw [cli_bucket_eq_deleted probe u hd]; intro hc; cases hc)]
      simp [cliNoMsgP, hd, ih]
    · by_cases hb : u.bot
      · rw [if_neg (by rw [cli_bucket_eq_bots probe u (by simpa using hd) hb]; intro hc; cases hc)]
        simp [cliNoMsgP, hd, hb, ih]
      · by_cases hs : u.scam
        · rw [if_neg (by rw [cli_bucket_eq_scam probe u (by simpa using hd) (by simpa using hb) hs]; intro hc; cases hc)]
          simp [cliNoMsgP, hd, hb, hs, ih]
        · by_cases hf : u.fake
          · rw [if_neg (by rw [cli_bucket_eq_fake probe u (by simpa using hd) (by simpa using hb) (by simpa using hs) hf]; intro hc; cases hc)]
            simp [cliNoMsgP, hd, hb, hs, hf, ih]
          · have hiff := cli_bucket_unflagged_val probe u (by simpa using hd)
              (by simpa using hb) (by simpa using hs) (by simpa using hf)
            by_cases hnm : cli_bucket probe u = CliBucket.no_messages
            · rw [if_pos hnm]
              have hval := hiff.mp hnm
              simp only [cliNoMsgP, hd, hb, hs, hf, hval]
              simp [ih]
            · rw [if_neg hnm]
              have hval : (match probe u.id 10 with
                  | Except.error _ => true
                  | Except.ok msgs => decide (msgs.length = 0)) = false := by
                by_cases hv : (match probe u.id 10 with
                    | Except.error _ => true
                    | Except.ok msgs => decide (msgs.length = 0)) = true
                · exact absurd (hiff.mpr hv) hnm
                · simpa using hv
              simp only [cliNoMsgP, hd, hb, hs, hf, hval]
              simp [ih]

theorem analyzeGo_calls_le (probe : Probe) (l : List TLEntity) (n : Nat) :
    (analyzeGo probe l n).2.length ≤ 50 - n := by
  induction l generalizing n with
  | nil => simp [analyzeGo]
  | cons d rest ih =>
    by_cases hu : d.cls = PyClass.user
    · simp only [analyzeGo, if_pos hu]
      by_cases hp : fa_probed d (n + 1)
      · have hn : n + 1 ≤ 50 := by
          simp only [fa_probed, Bool.and_eq_true, decide_eq_true_eq] at hp
          exact hp.2
        rw [if_pos hp]
        simp only [List.length_cons]
        have := ih (n + 1)
        omega
      · rw [if_neg hp]
        have := ih (n + 1)
        omega
    · simp only [analyzeGo, if_neg hu]
      exact ih n

theorem faAdd_no_messages_mono (b : FaBucket) (d u : TLEntity) (a : Analysis)
    (h : u ∈ a.no_messages) : u ∈ (faAdd b d a).no_messages := by
  cases b <;> first
    | exact h
    | exact List.mem_cons_of_mem d h

theorem analyzeGo_mem_no_messages (probe : Probe) (u : TLEntity)
    (post : List TLEntity) (hu : u.cls = PyClass.user)
    (hun : unflagged u = true)
    (hfail : probe u.id 1 = Except.error () ∨ probe u.id 1 = Except.ok []) :
    ∀ (pre : List TLEntity) (n : Nat), personCount pre + n + 1 ≤ 50 →
      u ∈ (analyzeGo probe (pre ++ u :: post) n).1.no_messages := by
  have hflags : u.deleted = false ∧ u.bot = false ∧ u.scam = false ∧
      u.fake = false := by
    simp only [unflagged, Bool.and_eq_true, Bool.not_eq_true'] at hun
    exact ⟨hun.1.1.1, hun.1.1.2, hun.1.2, hun.2⟩
  intro pre
  induction pre with
  | nil =>
    intro n hn
    simp only [List.nil_append, analyzeGo, if_pos hu]
    have hb : fa_bucket probe u (n + 1) = FaBucket.no_messages := by
      simp only [fa_bucket, hflags.1, hflags.2.1, hflags.2.2.1, hflags.2.2.2,
        Bool.false_eq_true, if_false]
      rw [if_pos (by simp [personCount] at hn; omega : n + 1 ≤ 50)]
      rcases hfail with h | h <;> rw [h] <;> simp
    rw [show (faAdd (fa_bucket probe u (n + 1)) u
        (analyzeGo probe post (n + 1)).1).no_messages =
        u :: (analyzeGo probe post (n + 1)).1.no_messages by
      rw [faAdd_no_messages, if_pos hb]]
    exact List.mem_cons_self u _
  | cons d rest ih =>
    intro n hn
    simp only [List.cons_append, analyzeGo]
    by_cases hd : d.cls = PyClass.user
    · rw [if_pos hd]
      apply faAdd_no_messages_mono
      apply ih (n + 1)
      have hpc : personCount (d :: rest) = personCount rest + 1 := by
        simp [personCount, List.filter_cons, isUserEnt, hd]
      omega
    · rw [if_neg hd]
      apply ih n
      have hpc : personCount (d :: rest) = personCount rest := by
        simp [personCount, List.filter_cons, isUserEnt, hd]
      omega

/-! ### Claim theorems for the classifier and analyzers -/

/-- C2: in both analyzers every person of the input lands in exactly one
bucket (the concatenation of all buckets is a permutation of the person
input, so nobody is dropped or double-counted), the four flag buckets are
exactly the priority-ordered filters (deleted, then bot among
non-deleted, then scam, then fake), and in particular a person flagged
both deleted and bot lands in the `deleted` bucket and never in `bots`. -/
theorem spam_analysis_priority_partition :
    (∀ (probe : Probe) (dialogs : List TLEntity),
      (concatAll (analyze probe dialogs)).Perm (dialogs.filter isUserEnt) ∧
      (analyze probe dialogs).deleted = dialogs.filter faDeletedP ∧
      (analyze probe dialogs).bots = dialogs.filter faBotP ∧
      (analyze probe dialogs).scam = dialogs.filter faScamP ∧
      (analyze probe dialogs).fake = dialogs.filter faFakeP) ∧
    (∀ (probe : Probe) (users : List TLEntity),
      (concatAllCli (analyze_user_chats probe users)).Perm users ∧
      (analyze_user_chats probe users).deleted =
        users.filter (fun u => u.deleted) ∧
      (analyze_user_chats probe users).bots =
        users.filter (fun u => !u.deleted && u.bot) ∧
      (analyze_user_chats probe users).scam =
        users.filter (fun u => !u.deleted && !u.bot && u.scam) ∧
      (analyze_user_chats probe users).fake =
        users.filter (fun u => !u.deleted && !u.bot && !u.scam && u.fake)) ∧
    (∀ (probe : Probe) (dialogs : List TLEntity) (u : TLEntity),
      u ∈ dialogs → u.cls = PyClass.user → u.deleted = true → u.bot = true →
      u ∈ (analyze probe dialogs).deleted ∧
        u ∉ (analyze probe dialogs).bots) := by
  refine ⟨fun probe dialogs =>
      ⟨analyzeGo_perm probe dialogs 0, analyzeGo_deleted probe dialogs 0,
       analyzeGo_bots probe dialogs 0, analyzeGo_scam probe dialogs 0,
       analyzeGo_fake probe dialogs 0⟩,
    fun probe users =>
      ⟨analyze_user_chats_perm probe users,
       analyze_user_chats_deleted probe users,
       analyze_user_chats_bots probe users,
       analyze_user_chats_scam probe users,
       analyze_user_chats_fake probe users⟩, ?_⟩
  intro probe dialogs u hmem hcls hdel hbot
  constructor
  · rw [show (analyze probe dialogs).deleted = dialogs.filter faDeletedP from
      analyzeGo_deleted probe dialogs 0]
    exact List.mem_filter.mpr ⟨hmem, by simp [faDeletedP, isUserEnt, hcls, hdel]⟩
  · rw [show (analyze probe dialogs).bots = dialogs.filter faBotP from
      analyzeGo_bots probe dialogs 0]
    intro hc
    have := (List.mem_filter.mp hc).2
    simp [faBotP, hdel] at this

/-- Witness for C2 at a concrete person flagged both deleted and bot. -/
theorem spam_analysis_priority_partition_w :
    botDeletedUser ∈ [botDeletedUser] ∧
    botDeletedUser ∈ (analyze probeAllOk [botDeletedUser]).deleted ∧
    botDeletedUser ∉ (analyze probeAllOk [botDeletedUser]).bots := by
  refine ⟨by decide, ?_⟩
  exact spam_analysis_priority_partition.2.2 probeAllOk [botDeletedUser]
    botDeletedUser (by decide) rfl rfl rfl

/-- C3 counterexample: the probe is not gated on the running count of
probed users. With fifty deleted-flagged persons followed by one plain
person, the running count of probed users is zero throughout (well within
a budget of 50), yet the 51st person is never probed: the claimed rule
"an unflagged person whose preceding probe count is within the budget
gets probed" is false for the code, which gates on the `users_checked`
counter of persons examined. -/
theorem analyze_probe_gate_counterexample :
    ¬ (∀ (probe : Probe) (pre post : List TLEntity) (u : TLEntity),
        u.cls = PyClass.user → unflagged u = true →
        (analyzeCalls probe pre).length ≤ 50 →
        u.id ∈ analyzeCalls probe (pre ++ u :: post)) := by
  intro h
  have h51 := h probeAllOk
    ((List.range 50).map (fun i => { mkUser ((i : Int) + 1) with deleted := true }))
    [] (mkUser 51) rfl rfl (by decide)
  revert h51
  decide

/-- C3 amended: the probe budget gates on the running count of person
entities examined (the `users_checked` counter), not on the count of
probed users: a person is probed only if it is among the first fifty
persons of the scan and unflagged, so at most fifty probes are ever made;
with probe budget 50 and sixty otherwise-unflagged persons, exactly the
first fifty are probed and persons 51-60 land in `active` with the probe
never invoked on their behalf. -/
theorem analyze_probe_budget_amended :
    (∀ (probe : Probe) (dialogs : List TLEntity),
      (analyzeCalls probe dialogs).length ≤ 50) ∧
    analyzeCalls probeAllOk input60 =
      (List.range 50).map (fun i => ((i : Int) + 1)) ∧
    (analyze probeAllOk input60).active = input60 := by
  refine ⟨fun probe dialogs => by
    simpa [analyzeCalls] using analyzeGo_calls_le probe dialogs 0, ?_, ?_⟩
  · decide
  · decide

/-- C4: a probed person whose probe raises or returns zero messages is
bucketed `no_messages` (in the CLI analyzer the `no_messages` bucket is
exactly the unflagged persons with failing or empty probes; in the
FastAPI analyzer any unflagged person within the budget window whose
probe raises or returns zero messages lands in `no_messages`), and probe
failures are fully absorbed: for every probe, including one that always
raises, the analyzer still returns a total partition of its person input,
so no per-probe error escapes to the caller. -/
theorem probe_failure_no_messages :
    (∀ (probe : Probe) (users : List TLEntity),
      (analyze_user_chats probe users).no_messages =
        users.filter (cliNoMsgP probe) ∧
      (concatAllCli (analyze_user_chats probe users)).Perm users) ∧
    (∀ (probe : Probe) (pre post : List TLEntity) (u : TLEntity),
      u.cls = PyClass.user → unflagged u = true →
      (probe u.id 1 = Except.error () ∨ probe u.id 1 = Except.ok []) →
      personCount pre + 1 ≤ 50 →
      u ∈ (analyze probe (pre ++ u :: post)).no_messages) ∧
    (∀ (probe : Probe) (dialogs : List TLEntity),
      (concatAll (analyze probe dialogs)).Perm (dialogs.filter isUserEnt)) := by
  refine ⟨fun probe users =>
      ⟨analyze_user_chats_no_messages probe users,
       analyze_user_chats_perm probe users⟩, ?_,
    fun probe dialogs => analyzeGo_perm probe dialogs 0⟩
  intro probe pre post u hu hun hfail hn
  exact analyzeGo_mem_no_messages probe u post hu hun hfail pre 0 (by omega)

/-- Witness for C4: an always-raising probe puts a plain person in
`no_messages`. -/
theorem probe_failure_no_messages_w :
    (mkUser 1).cls = PyClass.user ∧ unflagged (mkUser 1) = true ∧
    probeFail (mkUser 1).id 1 = Except.error () ∧
    personCount [] + 1 ≤ 50 ∧
    mkUser 1 ∈ (analyze probeFail ([] ++ mkUser 1 :: [])).no_messages := by
  refine ⟨rfl, rfl, rfl, by decide, ?_⟩
  exact probe_failure_no_messages.2.1 probeFail [] [] (mkUser 1) rfl rfl
    (Or.inl rfl) (by decide)

/-! ### Claim theorems for the delete endpoint and the export cache -/

/-- C9 counterexample: when the entity has vanished (`get_entity` raises
the not-found error), `delete_chat` does not report success: it returns
the generic `DELETE_ERROR` application error (a 400 response), so a
vanished target is treated as a failure, not as success-equivalent. -/
theorem delete_chat_notfound_counterexample :
    delete_chat vanishedClient 7 = DeleteHttpOutcome.appError "DELETE_ERROR" ∧
      delete_chat vanishedClient 7 ≠ DeleteHttpOutcome.success := by
  constructor
  · rfl
  · intro h; cases h

/-- C9 amended: any non-flood error during a `delete_chat` commit — the
vanished-entity not-found error included — is reported as the
`DELETE_ERROR` application error, never as success; only flood errors
receive the special 429 rate-limited treatment. -/
theorem delete_chat_notfound_amended (client : ClientModel) (chat_id : Int)
    (e : TelethonError) (hget : client.get_entity chat_id = Except.error e)
    (hnf : isFloodRelated e = false) :
    delete_chat client chat_id = DeleteHttpOutcome.appError "DELETE_ERROR" ∧
      delete_chat client chat_id ≠ DeleteHttpOutcome.success := by
  have hres : delete_chat client chat_id =
      DeleteHttpOutcome.appError "DELETE_ERROR" := by
    unfold delete_chat
    rw [hget]
    simp [delete_chat_handle, hnf]
  exact ⟨hres, by rw [hres]; intro h; cases h⟩

/-- Witness for the amended C9 at the vanished-entity client. -/
theorem delete_chat_notfound_amended_w :
    vanishedClient.get_entity 7 = Except.error TelethonError.notFoundError ∧
    isFloodRelated TelethonError.notFoundError = false ∧
    (delete_chat vanishedClient 7 = DeleteHttpOutcome.appError "DELETE_ERROR" ∧
      delete_chat vanishedClient 7 ≠ DeleteHttpOutcome.success) := by
  refine ⟨rfl, rfl, ?_⟩
  exact delete_chat_notfound_amended vanishedClient 7
    TelethonError.notFoundError rfl rfl

/-- C10: for every dialog list, `get_chats` stores only plain dicts in
the cache, and since every export filter tests the cache entries with
`isinstance` against the client library's classes — which a dict never
satisfies — all three export filters produce the empty data set on any
cache `get_chats` has populated. -/
theorem export_filters_empty (dialogs : List TLEntity) :
    (∀ item ∈ (get_chats dialogs).1, ∃ d, item = CacheItem.dict d) ∧
    ((get_chats dialogs).1.filter exportGroupFilter = [] ∧
     (get_chats dialogs).1.filter exportChannelFilter = [] ∧
     (get_chats dialogs).1.filter exportUserFilter = []) := by
  induction dialogs with
  | nil => exact ⟨(by intro item h; cases h), rfl, rfl, rfl⟩
  | cons chat rest ih =>
    refine ⟨?_, ?_, ?_, ?_⟩
    · intro item hmem
      rcases List.mem_cons.mp hmem with h | h
      · exact ⟨chat_data_of chat, h⟩
      · exact ih.1 item h
    · simpa [get_chats, List.filter_cons, exportGroupFilter] using ih.2.1
    · simpa [get_chats, List.filter_cons, exportChannelFilter] using ih.2.2.1
    · simpa [get_chats, List.filter_cons, exportUserFilter] using ih.2.2.2

/-! ### Optimistic-delete helper lemmas -/

theorem pdSet_not_mem (m : List (Int × PendingVal)) (id : Int) (v : PendingVal)
    (h : ∀ e ∈ m, e.1 ≠ id) : pdSet m id v = m ++ [(id, v)] := by
  unfold pdSet
  rw [if_neg]
  intro hc
  rw [List.any_eq_true] at hc
  rcases hc with ⟨e, he, hpe⟩
  exact h e he (by simpa using hpe)

theorem pdGet_append_self (m : List (Int × PendingVal)) (id : Int)
    (v : PendingVal) (h : ∀ e ∈ m, e.1 ≠ id) :
    pdGet (m ++ [(id, v)]) id = some v := by
  unfold pdGet
  induction m with
  | nil => simp
  | cons e rest ih =>
    have he : (e.1 = id) = False := by
      simp [h e (List.mem_cons_self e rest)]
    simp only [List.cons_append, List.find?_cons, he]
    simp only [decide_False]
    exact ih (fun x hx => h x (List.mem_cons_of_mem e hx))

theorem pdDelete_append_self (m : List (Int × PendingVal)) (id : Int)
    (v : PendingVal) (h : ∀ e ∈ m, e.1 ≠ id) :
    pdDelete (m ++ [(id, v)]) id = m := by
  unfold pdDelete
  rw [List.filter_append]
  have h1 : m.filter (fun e => e.1 ≠ id) = m :=
    List.filter_eq_self.mpr (fun e he => by simpa using h e he)
  have h2 : [(id, v)].filter (fun e : Int × PendingVal => e.1 ≠ id) = [] := by
    simp
  rw [h1, h2, List.append_nil]

theorem pdGet_none_of (m : List (Int × PendingVal)) (id : Int)
    (h : ∀ e ∈ m, e.1 ≠ id) : pdGet m id = none := by
  unfold pdGet
  rw [List.find?_eq_none.mpr]
  · rfl
  · intro e he
    simpa using h e he

theorem pdGet_pdSet_self (m : List (Int × PendingVal)) (id : Int)
    (v : PendingVal) (h : ∀ e ∈ m, e.1 ≠ id) :
    pdGet (pdSet m id v) id = some v := by
  rw [pdSet_not_mem m id v h]
  exact pdGet_append_self m id v h

theorem pdDelete_pdSet_self (m : List (Int × PendingVal)) (id : Int)
    (v : PendingVal) (h : ∀ e ∈ m, e.1 ≠ id) :
    pdDelete (pdSet m id v) id = m := by
  rw [pdSet_not_mem m id v h]
  exact pdDelete_append_self m id v h

theorem pdGet_pdDelete_self (m : List (Int × PendingVal)) (id : Int) :
    pdGet (pdDelete m id) id = none := by
  unfold pdGet pdDelete
  rw [List.find?_eq_none.mpr]
  · rfl
  · intro e he
    have := (List.mem_filter.mp he).2
    simpa using this

theorem filter_id_of_find (id : Int) (l : List ChatData) (c : ChatData)
    (hnd : (l.map (fun x => x.id)).Nodup)
    (hfind : l.find? (fun x => x.id = id) = some c) :
    l.filter (fun x => x.id = id) = [c] := by
  induction l with
  | nil => cases hfind
  | cons a rest ih =>
    by_cases ha : a.id = id
    · have hca : c = a := by
        rw [List.find?_cons_of_pos _ (by simpa using ha)] at hfind
        exact (Option.some.inj hfind).symm
      subst hca
      rw [List.filter_cons_of_pos (by simpa using ha)]
      have hrest : rest.filter (fun x => x.id = id) = [] := by
        rw [List.filter_eq_nil]
        intro x hx
        have hne : x.id ≠ c.id := by
          intro hEq
          have hm : c.id ∈ rest.map (fun x => x.id) :=
            hEq ▸ List.mem_map_of_mem (fun x => x.id) hx
          exact (List.nodup_cons.mp hnd).1 hm
        simp only [decide_eq_true_eq]
        exact fun hc => hne (hc.trans ha.symm)
      rw [hrest]
    · rw [List.find?_cons_of_neg _ (by simpa using ha)] at hfind
      rw [List.filter_cons_of_neg (by simpa using ha)]
      exact ih (List.nodup_cons.mp hnd).2 hfind

theorem filter_remove_restore_perm (id : Int) (l : List ChatData)
    (c : ChatData) (h : l.filter (fun x => x.id = id) = [c]) :
    (l.filter (fun x => x.id ≠ id) ++ [c]).Perm l := by
  have h2 : (fun (x : ChatData) => decide (x.id ≠ id)) =
      (fun x => !(decide (x.id = id))) := by
    funext x
    simp [decide_not]
  have h1 := List.filter_append_perm (fun x : ChatData => decide (x.id = id)) l
  rw [h] at h1
  refine List.Perm.trans List.perm_append_comm ?_
  rw [h2]
  exact h1

theorem findInCats_any (id : Int) (cat : String) (c : ChatData) :
    ∀ (ad : List (String × List ChatData)),
      findInCats ad id = some (cat, c) →
      ad.any (fun e => e.1 = cat) = true := by
  intro ad
  induction ad with
  | nil => intro h; cases h
  | cons e rest ih =>
    intro h
    rcases e with ⟨k, l⟩
    simp only [findInCats] at h
    rcases hl : l.find? (fun x => x.id = id) with _ | x
    · rw [hl] at h
      have := ih h
      simp [this]
    · rw [hl] at h
      have hk : k = cat := congrArg Prod.fst (Option.some.inj h)
      simp [hk]

theorem any_key_map (id : Int) (cat : String)
    (ad : List (String × List ChatData)) :
    ((ad.map (fun e =>
        if e.1 = cat then (e.1, e.2.filter (fun x => x.id ≠ id)) else e)).any
      (fun e => e.1 = cat)) = ad.any (fun e => e.1 = cat) := by
  induction ad with
  | nil => rfl
  | cons e rest ih =>
    by_cases he : e.1 = cat
    · simp only [List.map_cons, List.any_cons, if_pos he]
      simp [he]
    · simp only [List.map_cons, List.any_cons, if_neg he]
      rw [ih]

theorem maps_eq_update (id : Int) (cat : String) (c : ChatData) :
    ∀ (ad : List (String × List ChatData)),
      (ad.map (fun e =>
          if e.1 = cat then (e.1, e.2.filter (fun x => x.id ≠ id)) else e)).map
        (fun e => if e.1 = cat then (e.1, e.2 ++ [c]) else e) =
      ad.map (fun e =>
        if e.1 = cat then (e.1, e.2.filter (fun x => x.id ≠ id) ++ [c]) else e) := by
  intro ad
  induction ad with
  | nil => rfl
  | cons e rest ih =>
    simp only [List.map_cons, ih]
    congr 1
    by_cases he : e.1 = cat
    · simp [he]
    · simp [he]

theorem forall2_map_of_ne (id : Int) (cat : String) (c : ChatData) :
    ∀ (rest : List (String × List ChatData)),
      (∀ e ∈ rest, e.1 ≠ cat) →
      List.Forall₂
        (fun e1 e2 : String × List ChatData => e1.1 = e2.1 ∧ e1.2.Perm e2.2)
        (rest.map (fun e =>
          if e.1 = cat then (e.1, e.2.filter (fun x => x.id ≠ id) ++ [c]) else e))
        rest := by
  intro rest
  induction rest with
  | nil => intro _; exact List.Forall₂.nil
  | cons e rest2 ih =>
    intro hne
    simp only [List.map_cons, if_neg (hne e (List.mem_cons_self e rest2))]
    exact List.Forall₂.cons ⟨rfl, List.Perm.refl _⟩
      (ih (fun e2 he2 => hne e2 (List.mem_cons_of_mem e he2)))

theorem analysis_round_perm (id : Int) (cat : String) (c : ChatData) :
    ∀ (ad : List (String × List ChatData)),
      (ad.map Prod.fst).Nodup →
      (∀ e ∈ ad, (e.2.map (fun x => x.id)).Nodup) →
      findInCats ad id = some (cat, c) →
      List.Forall₂
        (fun e1 e2 : String × List ChatData => e1.1 = e2.1 ∧ e1.2.Perm e2.2)
        (ad.map (fun e =>
          if e.1 = cat then (e.1, e.2.filter (fun x => x.id ≠ id) ++ [c]) else e))
        ad := by
  intro ad
  induction ad with
  | nil => intro _ _ h; cases h
  | cons e rest ih =>
    intro hkeys hcats hfind
    rcases e with ⟨k, l⟩
    simp only [findInCats] at hfind
    rcases hl : l.find? (fun x => x.id = id) with _ | x
    · rw [hl] at hfind
      have hkcat : k ≠ cat := by
        intro hEq
        have hmem : cat ∈ rest.map Prod.fst := by
          have hany := findInCats_any id cat c rest hfind
          rw [List.any_eq_true] at hany
          rcases hany with ⟨e2, he2, hpe2⟩
          have he2c : e2.1 = cat := by simpa using hpe2
          exact he2c ▸ List.mem_map_of_mem Prod.fst he2
        exact (List.nodup_cons.mp hkeys).1 (hEq ▸ hmem)
      simp only [List.map_cons, if_neg hkcat]
      exact List.Forall₂.cons ⟨rfl, List.Perm.refl l⟩
        (ih (List.nodup_cons.mp hkeys).2
          (fun e2 he2 => hcats e2 (List.mem_cons_of_mem _ he2)) hfind)
    · rw [hl] at hfind
      have hk : k = cat := congrArg Prod.fst (Option.some.inj hfind)
      have hx : x = c := congrArg Prod.snd (Option.some.inj hfind)
      simp only [List.map_cons]
      refine List.Forall₂.cons ?_ ?_
      · split
        next => exact ⟨rfl, hx ▸ filter_remove_restore_perm id l x
            (filter_id_of_find id l x (hcats (k, l) (List.mem_cons_self _ _)) hl)⟩
        next hcf => exact absurd hk hcf
      · have hne : ∀ e2 ∈ rest, e2.1 ≠ cat := by
          intro e2 he2 hEq
          have hmem : cat ∈ rest.map Prod.fst :=
            hEq ▸ List.mem_map_of_mem Prod.fst he2
          exact (List.nodup_cons.mp hkeys).1 (hk ▸ hmem)
        exact forall2_map_of_ne id cat c rest hne

theorem undoDelete_single_eq (s : UIState) (id : Int) (chat : ChatData)
    (src : Source)
    (hget : pdGet s.pendingDeletes id = some (PendingVal.single chat src)) :
    undoDelete s id =
      restoreChat chat src
        { s with pendingDeletes := pdDelete s.pendingDeletes id } := by
  unfold undoDelete
  rw [hget]

theorem undo_round_main_state (s : UIState) (id : Int) (chat : ChatData)
    (hfc : s.currentChats.find? (fun c => c.id = id) = some chat)
    (hnp : ∀ e ∈ s.pendingDeletes, e.1 ≠ id) :
    undoDelete (deleteChat s id) id =
      { s with
        currentChats := s.currentChats.filter (fun c => c.id ≠ id) ++ [chat],
        selectedChats := s.selectedChats.filter (fun i => i ≠ id) } := by
  have hfind : findChatById s id = some (chat, Source.main) := by
    unfold findChatById
    rw [hfc]
  simp only [deleteChat, hfind, removeFromSource, undoDelete,
    pdGet_pdSet_self s.pendingDeletes id (PendingVal.single chat Source.main) hnp,
    pdDelete_pdSet_self s.pendingDeletes id (PendingVal.single chat Source.main) hnp,
    restoreChat]

theorem undo_round_analysis_state (s : UIState) (id : Int) (cat : String)
    (chat : ChatData)
    (hfc : s.currentChats.find? (fun c => c.id = id) = none)
    (hic : findInCats s.analysisData id = some (cat, chat))
    (hnp : ∀ e ∈ s.pendingDeletes, e.1 ≠ id) :
    undoDelete (deleteChat s id) id =
      { s with
        analysisData := s.analysisData.map (fun e =>
          if e.1 = cat then (e.1, e.2.filter (fun x => x.id ≠ id) ++ [chat]) else e),
        selectedChats := s.selectedChats.filter (fun i => i ≠ id) } := by
  have hfind : findChatById s id = some (chat, Source.analysis cat) := by
    unfold findChatById
    rw [hfc, hic]
  have hany : ((s.analysisData.map (fun e =>
      if e.1 = cat then (e.1, e.2.filter (fun x => x.id ≠ id)) else e)).any
        (fun e => e.1 = cat)) = true := by
    rw [any_key_map]
    exact findInCats_any id cat chat s.analysisData hic
  simp only [deleteChat, hfind, removeFromSource, undoDelete,
    pdGet_pdSet_self s.pendingDeletes id
      (PendingVal.single chat (Source.analysis cat)) hnp,
    pdDelete_pdSet_self s.pendingDeletes id
      (PendingVal.single chat (Source.analysis cat)) hnp,
    restoreChat, hany, if_true, maps_eq_update]

theorem timerFireStart_noop (s : UIState) (id : Int)
    (h : pdGet s.pendingDeletes id = none) : timerFireStart s id = s := by
  unfold timerFireStart
  rw [h]

/-! ### Claim theorems for the optimistic-delete machine -/

/-- C5: an undo that arrives while the PendingDelete is still armed (the
commit timer has not fired) leaves the delete-request log untouched —
zero calls are ever made to the delete endpoint for the entity, and a
later timer event for it is a no-op since the record is discarded — and
restores the snapshot to exactly its origin category: after the
create-then-undo round trip the main list and every analysis category
are permutations of their initial contents, and the pending map is
exactly as before. -/
theorem undo_before_commit_roundtrip (s : UIState) (id : Int)
    (chat : ChatData) (src : Source)
    (hfind : findChatById s id = some (chat, src))
    (hnp : ∀ e ∈ s.pendingDeletes, e.1 ≠ id)
    (hmain : (s.currentChats.map (fun c => c.id)).Nodup)
    (hkeys : (s.analysisData.map Prod.fst).Nodup)
    (hcats : ∀ e ∈ s.analysisData, (e.2.map (fun c => c.id)).Nodup) :
    ((undoDelete (deleteChat s id) id).deleteCalls = s.deleteCalls) ∧
    ((undoDelete (deleteChat s id) id).pendingDeletes = s.pendingDeletes) ∧
    ((undoDelete (deleteChat s id) id).inFlight = s.inFlight) ∧
    ((undoDelete (deleteChat s id) id).currentChats.Perm s.currentChats) ∧
    (List.Forall₂
      (fun e1 e2 : String × List ChatData => e1.1 = e2.1 ∧ e1.2.Perm e2.2)
      (undoDelete (deleteChat s id) id).analysisData s.analysisData) ∧
    (timerFireStart (undoDelete (deleteChat s id) id) id =
      undoDelete (deleteChat s id) id) := by
  unfold findChatById at hfind
  rcases hfc : s.currentChats.find? (fun c => c.id = id) with _ | c0
  · rw [hfc] at hfind
    rcases hic : findInCats s.analysisData id with _ | p
    · rw [hic] at hfind
      cases hfind
    · rw [hic] at hfind
      rcases p with ⟨cat, c0⟩
      have h1 := Option.some.inj hfind
      have hc : c0 = chat := congrArg Prod.fst h1
      subst hc
      have hst := undo_round_analysis_state s id cat c0 hfc hic hnp
      rw [hst]
      refine ⟨rfl, rfl, rfl, List.Perm.refl _, ?_, ?_⟩
      · exact analysis_round_perm id cat c0 s.analysisData hkeys hcats hic
      · exact timerFireStart_noop _ id (pdGet_none_of s.pendingDeletes id hnp)
  · rw [hfc] at hfind
    have h1 := Option.some.inj hfind
    have hc : c0 = chat := congrArg Prod.fst h1
    subst hc
    have hst := undo_round_main_state s id c0 hfc hnp
    rw [hst]
    refine ⟨rfl, rfl, rfl, ?_, ?_, ?_⟩
    · exact filter_remove_restore_perm id s.currentChats c0
        (filter_id_of_find id s.currentChats c0 hmain hfc)
    · exact List.forall₂_same.mpr (fun e _ => ⟨rfl, List.Perm.refl _⟩)
    · exact timerFireStart_noop _ id (pdGet_none_of s.pendingDeletes id hnp)

/-- Witness for C5: the round trip on a one-chat page. -/
theorem undo_before_commit_roundtrip_w :
    (findChatById s0Single 1 = some (chatA, Source.main)) ∧
    ((undoDelete (deleteChat s0Single 1) 1).deleteCalls = s0Single.deleteCalls ∧
     (undoDelete (deleteChat s0Single 1) 1).pendingDeletes = s0Single.pendingDeletes ∧
     (undoDelete (deleteChat s0Single 1) 1).inFlight = s0Single.inFlight ∧
     (undoDelete (deleteChat s0Single 1) 1).currentChats.Perm s0Single.currentChats ∧
     (List.Forall₂
       (fun e1 e2 : String × List ChatData => e1.1 = e2.1 ∧ e1.2.Perm e2.2)
       (undoDelete (deleteChat s0Single 1) 1).analysisData s0Single.analysisData) ∧
     timerFireStart (undoDelete (deleteChat s0Single 1) 1) 1 =
       undoDelete (deleteChat s0Single 1) 1) := by
  refine ⟨by decide, ?_⟩
  exact undo_before_commit_roundtrip s0Single 1 chatA Source.main (by decide)
    (by decide) (by decide) (by decide) (by decide)

/-- C6 counterexample: undo during the single-delete in-flight window
resurrects the entity. After the timer fires the delete request has been
issued (the record enters Committing), yet the pending record is still
in the map — the callback only removes it in its `finally` — so a
mid-flight undo restores the chat to the main list even though the
delete call stands in the log. -/
theorem undo_during_commit_counterexample :
    (undoDelete (timerFireStart (deleteChat s0Single 1) 1) 1).currentChats =
      [chatA] ∧
    (undoDelete (timerFireStart (deleteChat s0Single 1) 1) 1).deleteCalls =
      [1] := by
  constructor
  · rfl
  · rfl

/-- C6 amended: undo is a no-op exactly once the PendingDelete record
has been discarded — for a single delete that happens only when the
fetch resolves (any response), after which undo can no longer resurrect
the entity and never raises; during the in-flight window between the
request being issued and its response, the record is still present and
undo does restore the snapshot. -/
theorem undo_noop_after_commit :
    (∀ (s : UIState) (id : Int), pdGet s.pendingDeletes id = none →
      undoDelete s id = s) ∧
    (∀ (s : UIState) (id : Int) (resp : FetchResult)
       (entry : Int × ChatData × Source),
      s.inFlight.find? (fun e => e.1 = id) = some entry →
      undoDelete (fetchResolve s id resp) id = fetchResolve s id resp) := by
  constructor
  · intro s id h
    unfold undoDelete
    rw [h]
  · intro s id resp entry hf
    have hnone : pdGet (fetchResolve s id resp).pendingDeletes id = none := by
      unfold fetchResolve
      rw [hf]
      exact pdGet_pdDelete_self _ id
    unfold undoDelete
    rw [hnone]

/-- Witness for the amended C6: undo after a resolved commit is a
no-op. -/
theorem undo_noop_after_commit_w :
    ((timerFireStart (deleteChat s0Single 1) 1).inFlight.find?
        (fun e => e.1 = 1) = some (1, chatA, Source.main)) ∧
    undoDelete
        (fetchResolve (timerFireStart (deleteChat s0Single 1) 1) 1
          FetchResult.ok) 1 =
      fetchResolve (timerFireStart (deleteChat s0Single 1) 1) 1
        FetchResult.ok := by
  refine ⟨by decide, ?_⟩
  exact undo_noop_after_commit.2 (timerFireStart (deleteChat s0Single 1) 1) 1
    FetchResult.ok (1, chatA, Source.main) (by decide)

/-- C7 counterexample: a rate-limited delete is not reported as failed,
and the single-delete retry never issues a request. In the bulk loop a
first attempt answered rate-limited triggers one retry whose outcome is
ignored: when the retry is also rate-limited the item counts in neither
`deleted` nor `failed` (the claim requires it reported as a failure). In
the single-delete path, after a rate-limited response the re-scheduled
`deleteChat` finds the entity already removed from every view and does
nothing: the request log keeps exactly the one original call and the
entity stays dropped. -/
theorem retry_counterexample :
    bulkLoop respondFlood noCancel [7] 0 = ⟨0, 0, [7, 7]⟩ ∧
    (retryFire
        (fetchResolve (timerFireStart (deleteChat s0Single 1) 1) 1
          (FetchResult.rateLimited 5)) 1).deleteCalls = [1] ∧
    (retryFire
        (fetchResolve (timerFireStart (deleteChat s0Single 1) 1) 1
          (FetchResult.rateLimited 5)) 1).currentChats = [] := by
  refine ⟨rfl, rfl, rfl⟩

/-- C7 amended: in the bulk path a rate-limited delete gets exactly one
retry (two requests total for the item, never more), but the retry's
HTTP outcome is ignored — the item is counted neither as deleted nor as
failed unless the retry itself throws a network error, in which case
the surrounding catch counts one failure; in the single-delete path the
re-scheduled `deleteChat` is a no-op whenever the entity is absent from
all views (which the optimistic removal guarantees), so no retry
request is ever issued there. -/
theorem retry_amended :
    (∀ (respond : Int → Nat → FetchResult) (id : Int) (t : Nat),
      respond id 0 = FetchResult.rateLimited t →
      bulkLoop respond noCancel [id] 0 =
        ⟨0,
         (match respond id 1 with
          | FetchResult.netError => 1
          | _ => 0),
         [id, id]⟩) ∧
    (∀ (s : UIState) (id : Int), findChatById s id = none →
      deleteChat s id = s) := by
  constructor
  · intro respond id t h
    simp only [bulkLoop, noCancel, Bool.false_eq_true, if_false, h]
    rcases h1 : respond id 1 with _ | _ | _ | _ <;> simp [h1]
  · intro s id h
    unfold deleteChat
    rw [h]

/-- Witness for the amended C7 at the always-rate-limited responder and
an empty page. -/
theorem retry_amended_w :
    (respondFlood 7 0 = FetchResult.rateLimited 5) ∧
    bulkLoop respondFlood noCancel [7] 0 = ⟨0, 0, [7, 7]⟩ ∧
    (findChatById
        { currentChats := [], analysisData := [], pendingDeletes := [],
          selectedChats := [], deleteCalls := [], inFlight := [],
          retryScheduled := [] } 1 = none) ∧
    deleteChat
        { currentChats := [], analysisData := [], pendingDeletes := [],
          selectedChats := [], deleteCalls := [], inFlight := [],
          retryScheduled := [] } 1 =
      { currentChats := [], analysisData := [], pendingDeletes := [],
        selectedChats := [], deleteCalls := [], inFlight := [],
        retryScheduled := [] } := by
  refine ⟨rfl, ?_, by decide, ?_⟩
  · exact retry_amended.1 respondFlood 7 5 rfl
  · exact retry_amended.2 _ 1 (by decide)

/-- C8 counterexample: in the two-entity bulk scenario with cancel
arriving after the first commit and before the second attempt, the
final state does not match the claim: the first entity is gone (one
delete call, counted once), but the second entity is not restored to
its origin category — every view stays empty — and the loop reports
`deleted := 1, failed := 0` with no rolled-back count at all. -/
theorem bulk_cancel_counterexample :
    (bulkTimerFire (deleteSelected s0Bulk [1, 2] 99) 99 [1, 2] respondOk
        cancelAfterFirst).2 = ⟨1, 0, [1]⟩ ∧
    (bulkTimerFire (deleteSelected s0Bulk [1, 2] 99) 99 [1, 2] respondOk
        cancelAfterFirst).1.currentChats = [] ∧
    (bulkTimerFire (deleteSelected s0Bulk [1, 2] 99) 99 [1, 2] respondOk
        cancelAfterFirst).1.analysisData = [] ∧
    (bulkTimerFire (deleteSelected s0Bulk [1, 2] 99) 99 [1, 2] respondOk
        cancelAfterFirst).1.pendingDeletes = [] := by
  refine ⟨rfl, rfl, rfl, rfl⟩

/-- C8 amended: a cancel mid-commit stops issuing further delete
requests (once the flag is set before an item, no request is made for
it or any later item) and does not roll back the already-committed
first delete; but the remaining entity is not restored — it stays
removed from all category views since the bulk record was discarded
when the timer fired — and the reported counts are `deleted = 1` and
`failed = 0`, with no rolled-back count. -/
theorem bulk_cancel_amended :
    (∀ (respond : Int → Nat → FetchResult) (cancelled : Nat → Bool)
       (id : Int) (rest : List Int) (i : Nat), cancelled i = true →
      bulkLoop respond cancelled (id :: rest) i = ⟨0, 0, []⟩) ∧
    (bulkTimerFire (deleteSelected s0Bulk [1, 2] 99) 99 [1, 2] respondOk
        cancelAfterFirst).2 = ⟨1, 0, [1]⟩ ∧
    (bulkTimerFire (deleteSelected s0Bulk [1, 2] 99) 99 [1, 2] respondOk
        cancelAfterFirst).1.currentChats = [] ∧
    (bulkTimerFire (deleteSelected s0Bulk [1, 2] 99) 99 [1, 2] respondOk
        cancelAfterFirst).1.deleteCalls = [1] := by
  refine ⟨?_, rfl, rfl, rfl⟩
  intro respond cancelled id rest i h
  simp only [bulkLoop, h, if_true]

/-- Witness for the amended C8: the cancel flag set before position one
suppresses the whole remaining loop. -/
theorem bulk_cancel_amended_w :
    (cancelAfterFirst 1 = true) ∧
    bulkLoop respondOk cancelAfterFirst [2] 1 = ⟨0, 0, []⟩ := by
  refine ⟨rfl, ?_⟩
  exact bulk_cancel_amended.1 respondOk cancelAfterFirst 2 [] 1 rfl
